import Mathlib

/-!
Verification of the Coles product normalization and deduplication pipeline.

Shallow embedding of `src/coles/coles_product_processor.py`
(`ColesProductProcessor.process_products`, `remove_duplicates`,
`find_cross_category_duplicates`) and proofs of the specification claims.

Modelling conventions:
* A Python scalar value is a `PyVal` (`None`, `bool`, numbers, `str`).
  Python `int`/`float` are merged into exact rationals `ℚ`: the claims
  under scrutiny concern control flow and field plumbing, not binary
  floating-point rounding.  Container values (lists/dicts as *field values*)
  are outside the embedded value domain.
* A record (Python dict with string keys) is an association list
  `List (String × PyVal)`; `pyLookup` reads the first matching key and
  `pySet` mutates the first matching key (appending when absent), exactly
  like dict item assignment preserves insertion order.
* Code that can raise (`.strip()`/`.split()` on a non-string, ordered
  comparison of a non-number) runs in `Except PyErr`; code whose failures
  the source swallows (`try/except` around the unit-rate parse) returns
  `Option`.
* Python's f-string rendering of a number is modelled by `pyStrNum`, an
  injective rendering of the rational value into decimal digits (Python's
  `repr` is likewise injective on numeric values, and renders the integer
  `0` as `"0"`).  The claims depend only on injectivity and on the
  rendering of strings being the identity.
* `datetime.now().isoformat()` is modelled as an explicit `now : String`
  parameter of `processProducts`.
-/

/-- A Python scalar value as it occurs in scraped records. -/
inductive PyVal where
  | none : PyVal
  | bool : Bool → PyVal
  | num : ℚ → PyVal
  | str : String → PyVal
deriving DecidableEq, Repr

/-- A Python dict with string keys, as an insertion-ordered association list. -/
abbrev Record := List (String × PyVal)

/-- `d.get(k)` without default: first binding of `k`, if any. -/
def pyLookup : Record → String → Option PyVal
  | [], _ => Option.none
  | (k, v) :: rest, key => if k = key then some v else pyLookup rest key

/-- `d.get(k, default)`: note that a stored `None` is returned, not the default. -/
def pyGet (r : Record) (key : String) (dflt : PyVal) : PyVal :=
  (pyLookup r key).getD dflt

/-- `d[k] = v`: replace the first binding of `k`, or append a new binding. -/
def pySet : Record → String → PyVal → Record
  | [], key, v => [(key, v)]
  | (k, w) :: rest, key, v =>
      if k = key then (k, v) :: rest else (k, w) :: pySet rest key v

/-- Python truthiness of a scalar value. -/
def PyVal.truthy : PyVal → Bool
  | .none => false
  | .bool b => b
  | .num q => decide (q ≠ 0)
  | .str s => decide (s ≠ "")

/-- Numeric view: Python `bool` is an `int` subclass (`True == 1`). -/
def PyVal.toNum? : PyVal → Option ℚ
  | .num q => some q
  | .bool b => some (if b then 1 else 0)
  | _ => Option.none

/-- Python `==` on scalar values: numbers and booleans compare by numeric
value, strings by content, `None` only to itself, everything else unequal. -/
def pyEq (a b : PyVal) : Bool :=
  match a, b with
  | .str x, .str y => decide (x = y)
  | .none, .none => true
  | x, y =>
      match x.toNum?, y.toNum? with
      | some p, some q => decide (p = q)
      | _, _ => false

/-- Python `v in s` for a set modelled as the list of added elements. -/
def memPyEq (v : PyVal) (seen : List PyVal) : Bool :=
  seen.any (fun w => pyEq v w)

/-- Errors the embedded code can raise. -/
inductive PyErr where
  | attributeError : PyErr
  | typeError : PyErr
deriving DecidableEq, Repr

instance {ε α : Type _} [DecidableEq ε] [DecidableEq α] :
    DecidableEq (Except ε α) := fun x y =>
  match x, y with
  | .ok a, .ok b =>
      if h : a = b then isTrue (by rw [h])
      else isFalse (by intro he; cases he; exact h rfl)
  | .error e, .error f =>
      if h : e = f then isTrue (by rw [h])
      else isFalse (by intro he; cases he; exact h rfl)
  | .ok _, .error _ => isFalse (by intro h; cases h)
  | .error _, .ok _ => isFalse (by intro h; cases h)

/-- Python `x > 0`: numbers and booleans compare, everything else raises. -/
def pyGt0 (v : PyVal) : Except PyErr Bool :=
  match v.toNum? with
  | some q => .ok (decide (0 < q))
  | Option.none => .error .typeError

/-- Kernel-reducible rational subtraction (the library `Rat.sub` is
irreducible, which would block `decide` on concrete runs). -/
def ratSub (p q : ℚ) : ℚ := mkRat (p.num * q.den - q.num * p.den) (p.den * q.den)

/-- Python `x - y` on values already known to be numeric. -/
def pySub (a b : PyVal) : Except PyErr ℚ :=
  match a.toNum?, b.toNum? with
  | some p, some q => .ok (ratSub p q)
  | _, _ => .error .typeError

section PyEqLemmas

/-- Canonical form for Python `==`: booleans collapse to their numeric value. -/
def canonVal : PyVal → PyVal
  | .bool b => .num (if b then 1 else 0)
  | v => v

theorem pyEq_iff_canon {a b : PyVal} : pyEq a b = true ↔ canonVal a = canonVal b := by
  cases a <;> cases b <;>
    simp [pyEq, canonVal, PyVal.toNum?] <;>
    split_ifs <;> simp_all

theorem pyEq_refl (a : PyVal) : pyEq a a = true := pyEq_iff_canon.mpr rfl

theorem pyEq_symm {a b : PyVal} (h : pyEq a b = true) : pyEq b a = true :=
  pyEq_iff_canon.mpr (pyEq_iff_canon.mp h).symm

theorem pyEq_trans {a b c : PyVal} (h₁ : pyEq a b = true) (h₂ : pyEq b c = true) :
    pyEq a c = true :=
  pyEq_iff_canon.mpr ((pyEq_iff_canon.mp h₁).trans (pyEq_iff_canon.mp h₂))

theorem truthy_canon (a : PyVal) : (canonVal a).truthy = a.truthy := by
  cases a <;> simp [canonVal, PyVal.truthy] <;> split_ifs <;> simp_all

theorem pyEq_truthy {a b : PyVal} (h : pyEq a b = true) :
    a.truthy = b.truthy := by
  rw [← truthy_canon a, ← truthy_canon b, pyEq_iff_canon.mp h]

end PyEqLemmas

theorem ratSub_eq (p q : ℚ) : ratSub p q = p - q := by
  have hp : ((p.den : ℚ)) ≠ 0 := by exact_mod_cast p.den_nz
  have hq : ((q.den : ℚ)) ≠ 0 := by exact_mod_cast q.den_nz
  rw [ratSub, Rat.mkRat_eq_div]
  push_cast
  rw [sub_div, mul_div_mul_right _ _ hq, mul_comm ((p.den : ℚ)) ((q.den : ℚ)),
    mul_div_mul_right _ _ hp, Rat.num_div_den, Rat.num_div_den]

-- quick sanity examples (kernel-reducibility of the arithmetic used in decide)
example : pyEq (.num (mkRat 7 2)) (.num (mkRat 14 4)) = true := by decide
example : pyEq (.bool true) (.num 1) = true := by decide
example : (PyVal.num 0).truthy = false := by decide
example : pyGet [("a", .num 3)] "a" (.str "") = .num 3 := by decide
example : ratSub (mkRat 7 2) (mkRat 5 2) = 1 := by decide

/-! ## String helpers: `str.strip`, `split('|')[0]`, and decimal rendering -/

/-- Python whitespace, for `str.strip()` (the common ASCII whitespace). -/
def isWS (c : Char) : Bool := c == ' ' || c == '\t' || c == '\n' || c == '\r'

/-- Strip leading and trailing whitespace from a character list. -/
def stripList (l : List Char) : List Char :=
  ((l.dropWhile isWS).reverse.dropWhile isWS).reverse

/-- Python `s.strip()`. -/
def pyStrip (s : String) : String := String.mk (stripList s.data)

/-- Not the `'|'` separator character. -/
def notBar (c : Char) : Bool := c != '|'

/-- Python `s.split('|')[0]`: the segment before the first bar. -/
def firstSeg (s : String) : String :=
  String.mk (s.data.takeWhile notBar)

theorem dropWhile_dropWhile (p : α → Bool) (l : List α) :
    (l.dropWhile p).dropWhile p = l.dropWhile p := by
  induction l with
  | nil => rfl
  | cons a l ih =>
      by_cases hp : p a
      · simp [List.dropWhile_cons_of_pos hp, ih]
      · simp [List.dropWhile_cons_of_neg hp]

theorem dropWhile_of_append (p : α → Bool) (x y : List α)
    (h : (x ++ y).dropWhile p = x ++ y) : x.dropWhile p = x := by
  cases x with
  | nil => rfl
  | cons c x' =>
      by_cases hp : p c
      · exfalso
        rw [List.cons_append, List.dropWhile_cons_of_pos hp] at h
        have hle := (List.dropWhile_sublist p (l := x' ++ y)).length_le
        rw [h] at hle
        simp [List.length_append] at hle
      · simp [List.dropWhile_cons_of_neg hp]

theorem stripList_idem (l : List Char) : stripList (stripList l) = stripList l := by
  have hsplit : l.dropWhile isWS =
      stripList l ++ (((l.dropWhile isWS).reverse.takeWhile isWS)).reverse := by
    conv_lhs => rw [← List.reverse_reverse (l.dropWhile isWS),
      ← List.takeWhile_append_dropWhile (p := isWS) (l := (l.dropWhile isWS).reverse)]
    rw [List.reverse_append]
    rfl
  have h1 : (stripList l).dropWhile isWS = stripList l := by
    apply dropWhile_of_append isWS _ _
    rw [← hsplit]
    exact dropWhile_dropWhile isWS l
  have h2 : (stripList l).reverse.dropWhile isWS = (stripList l).reverse := by
    have hrr : (stripList l).reverse = (l.dropWhile isWS).reverse.dropWhile isWS :=
      List.reverse_reverse _
    rw [hrr, dropWhile_dropWhile]
  show (((stripList l).dropWhile isWS).reverse.dropWhile isWS).reverse = stripList l
  rw [h1, h2, List.reverse_reverse]

theorem pyStrip_idem (s : String) : pyStrip (pyStrip s) = pyStrip s := by
  show String.mk (stripList (stripList s.data)) = _
  rw [stripList_idem]
  rfl

theorem mem_stripList {c : Char} {l : List Char} (h : c ∈ stripList l) : c ∈ l := by
  unfold stripList at h
  rw [List.mem_reverse] at h
  have h₂ := (List.dropWhile_sublist isWS (l := (l.dropWhile isWS).reverse)).subset h
  rw [List.mem_reverse] at h₂
  exact (List.dropWhile_sublist isWS (l := l)).subset h₂

theorem mem_takeWhile {p : α → Bool} {l : List α} {x : α}
    (h : x ∈ l.takeWhile p) : p x = true := by
  induction l with
  | nil => simp [List.takeWhile] at h
  | cons a l ih =>
      by_cases hp : p a
      · rw [List.takeWhile_cons_of_pos hp] at h
        rcases List.mem_cons.mp h with rfl | h
        · exact hp
        · exact ih h

      · rw [List.takeWhile_cons_of_neg hp] at h
        simp at h

theorem takeWhile_eq_self {p : α → Bool} {l : List α}
    (h : ∀ x ∈ l, p x = true) : l.takeWhile p = l := by
  induction l with
  | nil => rfl
  | cons a l ih =>
      rw [List.takeWhile_cons_of_pos (h a (List.mem_cons_self a l))]
      rw [ih (fun x hx => h x (List.mem_cons_of_mem a hx))]

/-- The first bar-free segment contains no bar. -/
theorem firstSeg_noBar {s : String} {c : Char} (h : c ∈ (firstSeg s).data) :
    notBar c = true := mem_takeWhile h

/-- A bar-free string is its own first segment. -/
theorem firstSeg_of_noBar {s : String} (h : ∀ c ∈ s.data, notBar c = true) :
    firstSeg s = s := by
  show String.mk (s.data.takeWhile notBar) = s
  rw [takeWhile_eq_self h]

/-- Stripping preserves bar-freeness. -/
theorem pyStrip_noBar {s : String} (h : ∀ c ∈ s.data, notBar c = true) :
    ∀ c ∈ (pyStrip s).data, notBar c = true :=
  fun c hc => h c (mem_stripList hc)

/-! ### Injective decimal rendering of numbers -/

/-- Little-endian base-10 digits, with explicit fuel (structural recursion so
concrete runs reduce in the kernel). -/
def natDigitsAux : Nat → Nat → List Nat
  | 0, _ => []
  | _ + 1, 0 => []
  | fuel + 1, n + 1 => ((n + 1) % 10) :: natDigitsAux fuel ((n + 1) / 10)

def natDigits (n : Nat) : List Nat := natDigitsAux n n

def ofDigits10 : List Nat → Nat
  | [] => 0
  | d :: ds => d + 10 * ofDigits10 ds

theorem ofDigits10_natDigitsAux :
    ∀ fuel n, n ≤ fuel → ofDigits10 (natDigitsAux fuel n) = n := by
  intro fuel
  induction fuel with
  | zero =>
      intro n h
      interval_cases n
      rfl
  | succ f ih =>
      intro n h
      match n with
      | 0 => rfl
      | m + 1 =>
          show ofDigits10 (((m + 1) % 10) :: natDigitsAux f ((m + 1) / 10)) = m + 1
          show (m + 1) % 10 + 10 * ofDigits10 (natDigitsAux f ((m + 1) / 10)) = m + 1
          rw [ih ((m + 1) / 10) (by omega)]
          omega

theorem ofDigits10_natDigits (n : Nat) : ofDigits10 (natDigits n) = n :=
  ofDigits10_natDigitsAux n n le_rfl

theorem natDigitsAux_lt10 :
    ∀ fuel n d, d ∈ natDigitsAux fuel n → d < 10 := by
  intro fuel
  induction fuel with
  | zero => intro n d h; simp [natDigitsAux] at h
  | succ f ih =>
      intro n d h
      match n with
      | 0 => simp [natDigitsAux] at h
      | m + 1 =>
          rcases List.mem_cons.mp h with rfl | h
          · omega
          · exact ih _ _ h

def digitChar : Nat → Char
  | 0 => '0'
  | 1 => '1'
  | 2 => '2'
  | 3 => '3'
  | 4 => '4'
  | 5 => '5'
  | 6 => '6'
  | 7 => '7'
  | 8 => '8'
  | 9 => '9'
  | _ => '*'

def digitVal : Char → Nat
  | '0' => 0
  | '1' => 1
  | '2' => 2
  | '3' => 3
  | '4' => 4
  | '5' => 5
  | '6' => 6
  | '7' => 7
  | '8' => 8
  | '9' => 9
  | _ => 10

theorem digitVal_digitChar {d : Nat} (h : d < 10) : digitVal (digitChar d) = d := by
  interval_cases d <;> rfl

theorem map_digitVal_digitChar {l : List Nat} (h : ∀ d ∈ l, d < 10) :
    (l.map digitChar).map digitVal = l := by
  induction l with
  | nil => rfl
  | cons d l ih =>
      show digitVal (digitChar d) :: (l.map digitChar).map digitVal = d :: l
      rw [digitVal_digitChar (h d (List.mem_cons_self d l)),
        ih (fun x hx => h x (List.mem_cons_of_mem d hx))]

/-- Decimal rendering of a natural number. -/
def natStr (n : Nat) : String :=
  if n = 0 then "0" else String.mk ((natDigits n).reverse.map digitChar)

/-- Left inverse of `natStr`, witnessing its injectivity. -/
def strDecode (s : String) : Nat :=
  ofDigits10 ((s.data.map digitVal).reverse)

theorem strDecode_natStr (n : Nat) : strDecode (natStr n) = n := by
  by_cases h0 : n = 0
  · subst h0
    rfl
  · rw [natStr, if_neg h0]
    show ofDigits10 ((((natDigits n).reverse.map digitChar).map digitVal).reverse) = n
    rw [map_digitVal_digitChar (l := (natDigits n).reverse)
      (fun d hd => natDigitsAux_lt10 n n d (List.mem_reverse.mp hd))]
    rw [List.reverse_reverse]
    exact ofDigits10_natDigits n

theorem natStr_inj {m n : Nat} (h : natStr m = natStr n) : m = n := by
  have h2 := congrArg strDecode h
  rwa [strDecode_natStr, strDecode_natStr] at h2

/-- Injective rendering of a rational into decimal digits, standing in for
Python's (injective) `repr` of a numeric value.  Integers such as the absent
`price_value` default `0` render as plain decimal (`"0"`), matching Python. -/
def pyStrNum (q : ℚ) : String :=
  natStr (Nat.pair (Nat.pair q.num.natAbs (if q.num < 0 then 1 else 0)) q.den)

theorem pyStrNum_inj {p q : ℚ} (h : pyStrNum p = pyStrNum q) : p = q := by
  have h1 := natStr_inj h
  rw [Nat.pair_eq_pair] at h1
  obtain ⟨h2, hden⟩ := h1
  rw [Nat.pair_eq_pair] at h2
  obtain ⟨habs, hsign⟩ := h2
  have hnum : p.num = q.num := by
    split_ifs at hsign <;> omega
  exact Rat.ext hnum hden

/-- Python f-string rendering of a scalar value (strings render as
themselves; numeric rendering is the injective encoding above). -/
def pyStr : PyVal → String
  | .str s => s
  | .num q => pyStrNum q
  | .bool true => "True"
  | .bool false => "False"
  | .none => "None"

/-! ## Field extraction: trailing URL ids, the unit-rate pattern, rounding -/

/-- `re.search(r'-(\d+)$', url)`: matches iff the string ends in a hyphen
followed by one or more digits; the captured group is that digit run. -/
def extractTrailingId (u : String) : Option String :=
  let rev := u.data.reverse
  let ds := rev.takeWhile Char.isDigit
  if ds.isEmpty then Option.none
  else
    match rev.drop ds.length with
    | c :: _ => if c = '-' then some (String.mk ds.reverse) else Option.none
    | [] => Option.none

/-- A regex `\w` word character (ASCII model). -/
def isWordChar (c : Char) : Bool := c.isAlphanum || c == '_'

/-- A character allowed inside the `[\d\.]+` capture. -/
def isDigitDot (c : Char) : Bool := c.isDigit || c == '.'

/-- Digit run to number, most significant first (callers pass digit runs). -/
def digitsToNat (acc : Nat) : List Char → Nat
  | [] => acc
  | c :: cs => digitsToNat (acc * 10 + digitVal c) cs

/-- Python `float(text)` on a `[\d\.]+` capture: at most one dot and at
least one digit, e.g. `"1.5"`, `"1."`, `".5"`, `"7"`; `"."` or `"1.2.3"`
raise `ValueError` (modelled as `Option.none`, swallowed by the caller's
`try`/`except`). -/
def parseFloat (cs : List Char) : Option ℚ :=
  let ip := cs.takeWhile Char.isDigit
  let rest := cs.dropWhile Char.isDigit
  match rest with
  | [] => if ip.isEmpty then Option.none else some (mkRat (digitsToNat 0 ip) 1)
  | c :: frac =>
      if c = '.' then
        if frac.all Char.isDigit then
          if ip.isEmpty && frac.isEmpty then Option.none
          else some (mkRat (digitsToNat 0 ip * 10 ^ frac.length + digitsToNat 0 frac)
            (10 ^ frac.length))
        else Option.none
      else Option.none

/-- Try to match `\$([\d\.]+)\s+per\s+(\w+)` at the head of the character
list, returning the two captures.  Adjacent token classes of the pattern are
disjoint, so maximal-run matching coincides with the regex engine's
backtracking behavior. -/
def matchRateHere (cs : List Char) : Option (List Char × List Char) :=
  match cs with
  | '$' :: rest =>
      let numcs := rest.takeWhile isDigitDot
      if numcs.isEmpty then Option.none
      else
        let r₁ := rest.dropWhile isDigitDot
        let ws₁ := r₁.takeWhile isWS
        if ws₁.isEmpty then Option.none
        else
          match r₁.dropWhile isWS with
          | 'p' :: 'e' :: 'r' :: r₂ =>
              let ws₂ := r₂.takeWhile isWS
              if ws₂.isEmpty then Option.none
              else
                let w := (r₂.dropWhile isWS).takeWhile isWordChar
                if w.isEmpty then Option.none else some (numcs, w)
          | _ => Option.none
  | _ => Option.none

/-- `re.search`: first position (left to right) where the pattern matches. -/
def scanRate : List Char → Option (List Char × List Char)
  | [] => Option.none
  | c :: rest =>
      match matchRateHere (c :: rest) with
      | some r => some r
      | Option.none => scanRate rest

/-- Lines 59-69: extract `rate_value`/`rate_unit` from the cleaned unit
price; the whole attempt lives in `try`/`except`, so a parse failure means
"no fields set" rather than an error. -/
def extractRate (s : String) : Option (ℚ × String) :=
  match scanRate s.data with
  | some (numcs, w) =>
      match parseFloat numcs with
      | some q => some (q, String.mk (w.map Char.toLower))
      | Option.none => Option.none
  | Option.none => Option.none

/-- Round half to even (Python `round`), entirely in integer arithmetic so
concrete runs reduce in the kernel: `b > 0` throughout since it is a
rational's denominator. -/
def roundHalfEven (q : ℚ) : ℤ :=
  let a := q.num
  let b := (q.den : ℤ)
  let n := Int.fdiv a b
  let r2 := 2 * (a - n * b)
  if r2 < b then n else if b < r2 then n + 1 else if n % 2 = 0 then n else n + 1

/-- Python `round(x, 2)` on the exact rational value. -/
def round2 (q : ℚ) : ℚ := mkRat (roundHalfEven (mkRat (q.num * 100) q.den)) 100

-- sanity checks of the extraction layer on the spec's own examples
example : firstSeg "$3.50 per kg | Was $4.00 per kg" = "$3.50 per kg " := by decide
example : extractRate "$3.50 per kg" = some (mkRat 7 2, "kg") := by decide
example : extractTrailingId "https://c.com/product/milk-2l-123" = some "123" := by decide
example : extractTrailingId "https://c.com/product/milk" = Option.none := by decide
example : round2 (mkRat 1 1) = 1 := by decide
example : round2 (ratSub (mkRat 5 1) (mkRat 4 1)) = 1 := by decide
example : round2 (mkRat 2675 1000) = mkRat 268 100 := by decide

/-! ## The pipeline: `process_products`, `remove_duplicates`,
`find_cross_category_duplicates` -/

/-- Lines 41-46: if `id` is falsy and `url` truthy, try to extract a
trailing `-<digits>` id from the URL (raising `TypeError` if the truthy
`url` is not a string, as `re.search` would). -/
def idStep (p : Record) : Except PyErr Record :=
  let pid := (pyLookup p "id").getD .none
  let purl := (pyLookup p "url").getD .none
  if pid.truthy = false && purl.truthy then
    match purl with
    | .str u =>
        match extractTrailingId u with
        | some ds => .ok (pySet p "id" (.str ds))
        | Option.none => .ok p
    | _ => .error .typeError
  else .ok p

/-- Line 49: `product['vendor'] = 'coles'`. -/
def vendorStep (p : Record) : Record := pySet p "vendor" (.str "coles")

/-- Lines 51-69: clean `unit_price` (first `'|'` segment, stripped) and, if
the cleaned value is non-empty, attempt the unit-rate extraction.  A truthy
non-string `unit_price` raises `AttributeError` at `.split`. -/
def unitRateStep (p : Record) : Except PyErr Record :=
  let up := pyGet p "unit_price" (.str "")
  if up.truthy then
    match up with
    | .str s =>
        let s' := pyStrip (firstSeg s)
        let p₁ := pySet p "unit_price" (.str s')
        if s' = "" then .ok p₁
        else
          match extractRate s' with
          | some vu =>
              .ok (pySet (pySet p₁ "rate_value" (.num vu.1)) "rate_unit" (.str vu.2))
          | Option.none => .ok p₁
    | _ => .error .attributeError
  else .ok p

/-- Lines 71-77: set `is_on_special` from the truthiness of `special_text`
and strip the latter (raising `AttributeError` on a truthy non-string). -/
def specialStep (p : Record) : Except PyErr Record :=
  let st := pyGet p "special_text" (.str "")
  if st.truthy then
    match st with
    | .str t =>
        .ok (pySet (pySet p "is_on_special" (.bool true)) "special_text"
          (.str (pyStrip t)))
    | _ => .error .attributeError
  else .ok (pySet p "is_on_special" (.bool false))

/-- Lines 79-86: derive `save_value = round(was - price, 2)` when the raw
`save_value` equals zero and both operands are strictly positive. -/
def saveStep (p : Record) : Except PyErr Record :=
  let w := pyGet p "was_price_value" (.num 0)
  let c := pyGet p "price_value" (.num 0)
  let s := pyGet p "save_value" (.num 0)
  if pyEq s (.num 0) then
    match pyGt0 w with
    | .error e => .error e
    | .ok false => .ok p
    | .ok true =>
        match pyGt0 c with
        | .error e => .error e
        | .ok false => .ok p
        | .ok true =>
            match pySub w c with
            | .error e => .error e
            | .ok d => .ok (pySet p "save_value" (.num (round2 d)))
  else .ok p

/-- Lines 89-106: the cleaned record literal, in source field order, with
the source's explicit defaults; `t` is the record's (string) title. -/
def buildList (now : String) (p : Record) (t : String) : Record :=
  [("id", pyGet p "id" (.str "")),
   ("title", PyVal.str (pyStrip t)),
   ("price_value", pyGet p "price_value" (.num 0)),
   ("was_price_value", pyGet p "was_price_value" (.num 0)),
   ("save_value", pyGet p "save_value" (.num 0)),
   ("unit_price", pyGet p "unit_price" (.str "")),
   ("url", pyGet p "url" (.str "")),
   ("image_url", pyGet p "image_url" (.str "")),
   ("category", pyGet p "category" (.str "")),
   ("page", pyGet p "page" (.num 0)),
   ("vendor", PyVal.str "coles"),
   ("is_on_special", pyGet p "is_on_special" (.bool false)),
   ("special_text", pyGet p "special_text" (.str "")),
   ("rate_value", pyGet p "rate_value" (.num 0)),
   ("rate_unit", pyGet p "rate_unit" (.str "")),
   ("scrapedAt", pyGet p "scrapedAt" (.str now))]

/-- Lines 88-109: assemble the cleaned record with explicit defaults, then
drop `None`-valued fields (line 109). -/
def buildStep (now : String) (p : Record) : Except PyErr Record :=
  match pyGet p "title" (.str "") with
  | .str t => .ok ((buildList now p t).filter (fun kv => kv.2 != PyVal.none))
  | _ => .error .attributeError

/-- Lines 36-111: process one raw record.  `ok none` means skipped at the
title check (lines 38-39), `ok (some r)` means `r` is appended, `error`
means an exception escapes `process_products`. -/
def processOne (now : String) (p : Record) : Except PyErr (Option Record) :=
  if (pyGet p "title" (.str "")).truthy then
    match idStep p with
    | .error e => .error e
    | .ok p₁ =>
        match unitRateStep (vendorStep p₁) with
        | .error e => .error e
        | .ok p₃ =>
            match specialStep p₃ with
            | .error e => .error e
            | .ok p₄ =>
                match saveStep p₄ with
                | .error e => .error e
                | .ok p₅ => (buildStep now p₅).map some
  else .ok Option.none

/-- Lines 32-113: `ColesProductProcessor.process_products`.  The per-record
`datetime.now().isoformat()` default for `scrapedAt` is the `now`
parameter. -/
def processProducts (now : String) : List Record → Except PyErr (List Record)
  | [] => .ok []
  | p :: ps =>
      match processOne now p with
      | .error e => .error e
      | .ok Option.none => processProducts now ps
      | .ok (some r) =>
          match processProducts now ps with
          | .error e => .error e
          | .ok out => .ok (r :: out)

/-- The dedup identity (lines 122 and 130): the record's `id` when truthy,
otherwise the pseudo-key string `f"{title}-{price_value}"` with defaults
`''` and `0`. -/
def dedupKey (p : Record) : PyVal :=
  let pid := pyGet p "id" (.str "")
  if pid.truthy then pid
  else
    .str (pyStr (pyGet p "title" (.str "")) ++ "-" ++
      pyStr (pyGet p "price_value" (.num 0)))

/-- Lines 121-135: the classification loop of `remove_duplicates`.  Both
the truthy-id branch and the pseudo-key branch test membership of the one
shared `seen_ids` set and add their key to it only when the record is kept.
Within the scalar value domain every key is hashable, so the loop is
total. -/
def rdLoop (seen : List PyVal) : List Record → List Record × List Record
  | [] => ([], [])
  | p :: ps =>
      let k := dedupKey p
      if memPyEq k seen then
        let ud := rdLoop seen ps
        (ud.1, p :: ud.2)
      else
        let ud := rdLoop (k :: seen) ps
        (p :: ud.1, ud.2)

/-- Lines 115-146: `remove_duplicates`, returning `(unique, duplicates)`.
(The `product_stats` bookkeeping and logging are side channels derived from
the two lengths and are not part of the return value.) -/
def removeDuplicates (ps : List Record) : List Record × List Record :=
  rdLoop [] ps

/-- Line 178: `product.get('id')` — `None` when the key is absent. -/
def pidOf (p : Record) : PyVal := (pyLookup p "id").getD .none

/-- One `(category, product)` pair appended into the group whose key
Python-equals `k`, or a fresh group at the end (defaultdict order). -/
def assocAppend :
    List (PyVal × List (String × Record)) → PyVal → String × Record →
      List (PyVal × List (String × Record))
  | [], k, x => [(k, [x])]
  | (k', xs) :: rest, k, x =>
      if pyEq k' k then (k', xs ++ [x]) :: rest
      else (k', xs) :: assocAppend rest k x

/-- Lines 177-180: group one product by its id when truthy. -/
def addProduct (acc : List (PyVal × List (String × Record))) (cat : String)
    (p : Record) : List (PyVal × List (String × Record)) :=
  if (pidOf p).truthy then assocAppend acc (pidOf p) (cat, p) else acc

def groupProducts (acc : List (PyVal × List (String × Record))) (cat : String) :
    List Record → List (PyVal × List (String × Record))
  | [] => acc
  | p :: ps => groupProducts (addProduct acc cat p) cat ps

def groupCats (acc : List (PyVal × List (String × Record))) :
    List (String × List Record) → List (PyVal × List (String × Record))
  | [] => acc
  | cp :: rest => groupCats (groupProducts acc cp.1 cp.2) rest

/-- Lines 171-189: `find_cross_category_duplicates`: group all products by
truthy id, keep groups spanning more than one distinct category. -/
def findCrossCategoryDuplicates (m : List (String × List Record)) :
    List (PyVal × List (String × Record)) :=
  (groupCats [] m).filter (fun e => 1 < ((e.2.map Prod.fst).dedup.length))

/-! ## Specification-side definitions (for refinement-style claims) -/

/-- The spec's first-occurrence-wins rule, stated from its words: a record
is kept iff no earlier record of the input bears a Python-equal dedup key;
every later bearer of a seen key is a duplicate, regardless of any other
field differences. -/
def specFirstWins (earlier : List Record) : List Record → List Record × List Record
  | [] => ([], [])
  | p :: ps =>
      let ud := specFirstWins (earlier ++ [p]) ps
      if earlier.all (fun q => !(pyEq (dedupKey q) (dedupKey p))) then
        (p :: ud.1, ud.2)
      else (ud.1, p :: ud.2)

/-- All `(category, product)` pairs of the mapping whose id Python-equals
`k`, in iteration order (category order, then product order) — the spec's
description of a cross-category group. -/
def allPairs (m : List (String × List Record)) (k : PyVal) :
    List (String × Record) :=
  m.flatMap (fun cp =>
    (cp.2.filter (fun p => pyEq (pidOf p) k)).map (fun p => (cp.1, p)))

/-- Number of distinct categories among a group's pairs. -/
def distinctCats (pairs : List (String × Record)) : Nat :=
  (pairs.map Prod.fst).dedup.length

/-- Lookup in a grouping by Python equality of keys. -/
def lookupPyEq (acc : List (PyVal × List (String × Record))) (k : PyVal) :
    Option (List (String × Record)) :=
  (acc.find? (fun e => pyEq e.1 k)).map (fun e => e.2)

def isStrVal : PyVal → Bool
  | .str _ => true
  | _ => false

/-- Sufficient well-typedness for `process_products` not to raise on a
record: the four text fields hold strings (`pyGet` view, so an absent field
defaults to a string) and the two price operands are numeric (numbers or
booleans). -/
def SafeRecord (p : Record) : Bool :=
  isStrVal (pyGet p "title" (.str "")) &&
  isStrVal (pyGet p "url" (.str "")) &&
  isStrVal (pyGet p "unit_price" (.str "")) &&
  isStrVal (pyGet p "special_text" (.str "")) &&
  (pyGet p "was_price_value" (.num 0)).toNum?.isSome &&
  (pyGet p "price_value" (.num 0)).toNum?.isSome

-- sanity: a full concrete run of the pipeline
example :
    processProducts "T" [[("title", .str " Milk 2L "), ("price_value", .num 4),
      ("was_price_value", .num 5), ("save_value", .num 0),
      ("unit_price", .str "$2.00 per L | Was $2.50 per L"),
      ("special_text", .str " Save $1 ")]] =
    .ok [[("id", .str ""), ("title", .str "Milk 2L"), ("price_value", .num 4),
      ("was_price_value", .num 5), ("save_value", .num 1),
      ("unit_price", .str "$2.00 per L"), ("url", .str ""),
      ("image_url", .str ""), ("category", .str ""), ("page", .num 0),
      ("vendor", .str "coles"), ("is_on_special", .bool true),
      ("special_text", .str "Save $1"), ("rate_value", .num 2),
      ("rate_unit", .str "l"), ("scrapedAt", .str "T")]] := by decide

/-! ## Record lemmas -/

theorem pyLookup_pySet_self (r : Record) (k : String) (v : PyVal) :
    pyLookup (pySet r k v) k = some v := by
  induction r with
  | nil => simp [pySet, pyLookup]
  | cons kv rest ih =>
      by_cases h : kv.1 = k
      · simp [pySet, h, pyLookup]
      · simp [pySet, h, pyLookup, ih]

theorem pyLookup_pySet_ne (r : Record) {k k' : String} (v : PyVal)
    (h : k' ≠ k) : pyLookup (pySet r k v) k' = pyLookup r k' := by
  induction r with
  | nil => simp [pySet, pyLookup, Ne.symm h]
  | cons kv rest ih =>
      obtain ⟨k₁, w⟩ := kv
      by_cases hk : k₁ = k
      · subst hk
        have hne : ¬(k₁ = k') := Ne.symm h
        simp [pySet, pyLookup, hne]
      · simp [pySet, hk, pyLookup, ih]

theorem pyGet_pySet_ne (r : Record) {k k' : String} (v d : PyVal)
    (h : k' ≠ k) : pyGet (pySet r k v) k' d = pyGet r k' d := by
  unfold pyGet
  rw [pyLookup_pySet_ne r v h]

theorem pySet_same {r : Record} {k : String} {v : PyVal}
    (h : pyLookup r k = some v) : pySet r k v = r := by
  induction r with
  | nil => simp [pyLookup] at h
  | cons kv rest ih =>
      by_cases hk : kv.1 = k
      · obtain ⟨k₁, w⟩ := kv
        simp only at hk
        subst hk
        simp [pyLookup] at h
        simp [pySet, h]
      · obtain ⟨k₁, w⟩ := kv
        simp only at hk
        simp [pyLookup, hk] at h
        simp [pySet, hk, ih h]

theorem pyLookup_filterNone {r : Record} {k : String} {v : PyVal}
    (h : pyLookup r k = some v) (hv : v ≠ PyVal.none) :
    pyLookup (r.filter (fun kv => kv.2 != PyVal.none)) k = some v := by
  induction r with
  | nil => simp [pyLookup] at h
  | cons kv rest ih =>
      obtain ⟨k₁, w⟩ := kv
      by_cases hk : k₁ = k
      · subst hk
        simp [pyLookup] at h
        subst h
        simp [List.filter_cons, hv, pyLookup]
      · simp [pyLookup, hk] at h
        by_cases hw : w = PyVal.none
        · simp [List.filter_cons, hw, ih h]
        · simp [List.filter_cons, hw, pyLookup, hk, ih h]

theorem pyEq_comm (a b : PyVal) : pyEq a b = pyEq b a := by
  cases h : pyEq a b
  · cases h2 : pyEq b a
    · rfl
    · rw [pyEq_symm h2] at h
      exact h.symm
  · exact (pyEq_symm h).symm

/-! ## Dedup: partition and first-occurrence-wins -/

theorem rdLoop_append_perm (ps : List Record) :
    ∀ seen, ((rdLoop seen ps).1 ++ (rdLoop seen ps).2).Perm ps := by
  induction ps with
  | nil => intro seen; simp [rdLoop]
  | cons p ps ih =>
      intro seen
      by_cases hm : memPyEq (dedupKey p) seen = true
      · simp only [rdLoop, hm, if_pos]
        exact List.perm_middle.trans ((ih seen).cons p)
      · simp only [rdLoop, hm, if_neg, Bool.not_eq_true]
        simp only [List.cons_append]
        exact ((ih (dedupKey p :: seen)).cons p)

/-- C2: `remove_duplicates` is a partition: for every input, the
concatenation of `unique` and `duplicates` equals the input as a multiset —
so every record lands in exactly one of the two lists — and the lengths
add up to the input length. -/
theorem removeDuplicates_partition (ps : List Record) :
    (((removeDuplicates ps).1 ++ (removeDuplicates ps).2 : List Record) :
        Multiset Record) = (ps : Multiset Record) ∧
    (removeDuplicates ps).1.length + (removeDuplicates ps).2.length = ps.length := by
  have hperm := rdLoop_append_perm ps []
  constructor
  · exact Multiset.coe_eq_coe.mpr hperm
  · have := hperm.length_eq
    simpa [List.length_append] using this

theorem all_not_pyEq_eq_not_mem (k : PyVal) (E : List Record) :
    (E.all (fun q => !(pyEq (dedupKey q) k))) =
      !(memPyEq k (E.map dedupKey)) := by
  induction E with
  | nil => rfl
  | cons e E ihE =>
      simp only [List.all_cons, List.map_cons, memPyEq, List.any_cons,
        Bool.not_or] at *
      rw [ihE, pyEq_comm k (dedupKey e)]

theorem rdLoop_eq_specFirstWins (ps : List Record) :
    ∀ (earlier : List Record) (seen : List PyVal),
      (∀ v, memPyEq v seen = memPyEq v (earlier.map dedupKey)) →
      rdLoop seen ps = specFirstWins earlier ps := by
  induction ps with
  | nil => intro earlier seen _; rfl
  | cons p ps ih =>
      intro earlier seen hinv
      have hall := all_not_pyEq_eq_not_mem (dedupKey p) earlier
      cases hmem : memPyEq (dedupKey p) (earlier.map dedupKey) with
      | true =>
          have hseen : memPyEq (dedupKey p) seen = true :=
            (hinv (dedupKey p)).trans hmem
          have hrec : rdLoop seen ps = specFirstWins (earlier ++ [p]) ps := by
            apply ih
            intro v
            rw [hinv v]
            simp only [List.map_append, List.map_cons, List.map_nil]
            show memPyEq v (earlier.map dedupKey) =
              memPyEq v (earlier.map dedupKey ++ [dedupKey p])
            unfold memPyEq
            rw [List.any_append]
            simp only [List.any_cons, List.any_nil, Bool.or_false]
            cases hv : pyEq v (dedupKey p)
            · simp
            · obtain ⟨w, hw, hpw⟩ := List.any_eq_true.mp hmem
              have hvw : (earlier.map dedupKey).any (fun x => pyEq v x) = true :=
                List.any_eq_true.mpr ⟨w, hw, pyEq_trans hv hpw⟩
              simp [hvw]
          rw [hmem] at hall
          simp only [rdLoop, specFirstWins, hseen, hall, Bool.not_true,
            if_true, Bool.false_eq_true, if_false, hrec]
      | false =>
          have hseen : memPyEq (dedupKey p) seen = false :=
            (hinv (dedupKey p)).trans hmem
          have hrec : rdLoop (dedupKey p :: seen) ps =
              specFirstWins (earlier ++ [p]) ps := by
            apply ih
            intro v
            show (dedupKey p :: seen).any (fun w => pyEq v w) =
              memPyEq v ((earlier ++ [p]).map dedupKey)
            rw [List.any_cons]
            simp only [List.map_append, List.map_cons, List.map_nil]
            show (pyEq v (dedupKey p) || memPyEq v seen) =
              memPyEq v (earlier.map dedupKey ++ [dedupKey p])
            unfold memPyEq
            rw [List.any_append]
            have hv := hinv v
            unfold memPyEq at hv
            rw [hv]
            simp only [List.any_cons, List.any_nil, Bool.or_false]
            exact Bool.or_comm _ _
          rw [hmem] at hall
          simp only [rdLoop, specFirstWins, hseen, hall, Bool.not_false,
            Bool.false_eq_true, if_false, if_true, hrec]

/-- C3: first-occurrence-wins: `remove_duplicates` keeps exactly the first
record bearing each dedup key and classifies every later record whose key
is already seen as a duplicate, regardless of any other field differences —
it coincides with the spec's selection rule `specFirstWins`.  (In
particular, of two records with the same non-empty id and different titles,
the first is unique and the second a duplicate.) -/
theorem removeDuplicates_first_occurrence_wins (ps : List Record) :
    removeDuplicates ps = specFirstWins [] ps :=
  rdLoop_eq_specFirstWins ps [] [] (fun v => by simp [memPyEq])

/-! ## C9, C10: concrete behaviors of the shared seen-set and the
pre-trim title check -/

/-- C9: real ids and pseudo-keys share one `seen_ids` set: in this input
the second record has an empty id and synthetic key `"A-3.5"`, which equals
the first record's real id, so it is classified a duplicate although no
earlier record shares its title (`"A"` vs `"B"`) or its `price_value`. -/
theorem removeDuplicates_shared_seen_set :
    removeDuplicates
        [[("id", .str "A-3.5"), ("title", .str "B")],
         [("title", .str "A"), ("price_value", .str "3.5")]] =
      ([[("id", .str "A-3.5"), ("title", .str "B")]],
       [[("title", .str "A"), ("price_value", .str "3.5")]]) ∧
    pyGet [("id", PyVal.str "A-3.5"), ("title", PyVal.str "B")] "title" (.str "")
        ≠ pyGet [("title", PyVal.str "A"), ("price_value", PyVal.str "3.5")]
            "title" (.str "") ∧
    pyGet [("id", PyVal.str "A-3.5"), ("title", PyVal.str "B")] "price_value"
        (.num 0)
        ≠ pyGet [("title", PyVal.str "A"), ("price_value", PyVal.str "3.5")]
            "price_value" (.num 0) := by
  refine ⟨?_, by decide, by decide⟩
  decide

/-- C10: the title rejection check (line 38) runs before trimming
(line 91): a whitespace-only title is truthy, so the record is kept, and
the produced record's `title` is the empty string. -/
theorem processProducts_title_check_before_trim (now : String) :
    processProducts now [[("title", .str " ")]] =
      .ok [[("id", .str ""), ("title", .str ""), ("price_value", .num 0),
        ("was_price_value", .num 0), ("save_value", .num 0),
        ("unit_price", .str ""), ("url", .str ""), ("image_url", .str ""),
        ("category", .str ""), ("page", .num 0), ("vendor", .str "coles"),
        ("is_on_special", .bool false), ("special_text", .str ""),
        ("rate_value", .num 0), ("rate_unit", .str ""),
        ("scrapedAt", .str now)]] := by
  rfl

/-! ## C1: totality -/

/-- C1 counterexample: a record whose `title` is the (truthy) number `1`
reaches `product.get('title', '').strip()` and raises `AttributeError`,
which escapes `process_products` — so the stage is not total over
arbitrary string-keyed mappings with wrongly-typed values. -/
theorem processProducts_raises_on_numeric_title :
    processProducts "T" [[("title", .num 1)]] = .error .attributeError := by
  decide

theorem vendorStep_get (p : Record) (key : String) (d : PyVal)
    (h : key ≠ "vendor") : pyGet (vendorStep p) key d = pyGet p key d :=
  pyGet_pySet_ne p _ d h

theorem idStep_ok (p : Record) (h : isStrVal (pyGet p "url" (.str "")) = true) :
    ∃ q, idStep p = .ok q ∧
      ∀ (key : String) (d : PyVal), key ≠ "id" → pyGet q key d = pyGet p key d := by
  unfold idStep
  cases hc : (decide ((((pyLookup p "id").getD .none)).truthy = false) &&
      (((pyLookup p "url").getD .none)).truthy) with
  | false =>
      refine ⟨p, ?_, fun _ _ _ => rfl⟩
      simp only [hc, Bool.false_eq_true, if_false]
  | true =>
      have hurl : (((pyLookup p "url").getD .none)).truthy = true :=
        (Bool.and_eq_true _ _ |>.mp hc).2
      cases hl : pyLookup p "url" with
      | none =>
          rw [hl] at hurl
          simp [PyVal.truthy] at hurl
      | some v =>
          have hv : isStrVal v = true := by
            unfold pyGet at h
            rw [hl] at h
            exact h
          cases v with
          | str u =>
              rw [hl] at hc
              simp only [Option.getD_some] at hc
              cases he : extractTrailingId u with
              | none =>
                  refine ⟨p, ?_, fun _ _ _ => rfl⟩
                  simp only [hl, Option.getD_some, hc, if_true, he]
              | some ds =>
                  refine ⟨pySet p "id" (.str ds), ?_,
                    fun key d hk => pyGet_pySet_ne p _ d hk⟩
                  simp only [hl, Option.getD_some, hc, if_true, he]
          | none => simp [isStrVal] at hv
          | bool b => simp [isStrVal] at hv
          | num q => simp [isStrVal] at hv

theorem unitRateStep_ok (p : Record)
    (h : isStrVal (pyGet p "unit_price" (.str "")) = true) :
    ∃ q, unitRateStep p = .ok q ∧
      ∀ (key : String) (d : PyVal), key ≠ "unit_price" → key ≠ "rate_value" →
        key ≠ "rate_unit" → pyGet q key d = pyGet p key d := by
  unfold unitRateStep
  cases ht : (pyGet p "unit_price" (.str "")).truthy with
  | false =>
      refine ⟨p, ?_, fun _ _ _ _ _ => rfl⟩
      simp only [ht, Bool.false_eq_true, if_false]
  | true =>
      cases hup : pyGet p "unit_price" (.str "") with
      | str s =>
          have hst : (PyVal.str s).truthy = true := by rw [← hup]; exact ht
          by_cases hs : pyStrip (firstSeg s) = ""
          · refine ⟨pySet p "unit_price" (.str (pyStrip (firstSeg s))), ?_,
              fun key d h₁ _ _ => pyGet_pySet_ne p _ d h₁⟩
            simp only [hup, hst, if_true, hs, if_pos]
          · cases he : extractRate (pyStrip (firstSeg s)) with
            | none =>
                refine ⟨pySet p "unit_price" (.str (pyStrip (firstSeg s))), ?_,
                  fun key d h₁ _ _ => pyGet_pySet_ne p _ d h₁⟩
                simp only [hup, hst, if_true, hs, if_false, he, ite_self]
            | some vu =>
                refine ⟨pySet (pySet (pySet p "unit_price"
                    (.str (pyStrip (firstSeg s)))) "rate_value" (.num vu.1))
                    "rate_unit" (.str vu.2), ?_, fun key d h₁ h₂ h₃ => ?_⟩
                · simp only [hup, hst, if_true, hs, if_false, he, ite_self]
                · rw [pyGet_pySet_ne _ _ d h₃, pyGet_pySet_ne _ _ d h₂,
                    pyGet_pySet_ne p _ d h₁]
      | none => rw [hup] at ht; simp [PyVal.truthy] at ht
      | bool b => rw [hup] at h; simp [isStrVal] at h
      | num q => rw [hup] at h; simp [isStrVal] at h

theorem specialStep_ok (p : Record)
    (h : isStrVal (pyGet p "special_text" (.str "")) = true) :
    ∃ q, specialStep p = .ok q ∧
      ∀ (key : String) (d : PyVal), key ≠ "is_on_special" →
        key ≠ "special_text" → pyGet q key d = pyGet p key d := by
  unfold specialStep
  cases ht : (pyGet p "special_text" (.str "")).truthy with
  | false =>
      refine ⟨pySet p "is_on_special" (.bool false), ?_,
        fun key d h₁ _ => pyGet_pySet_ne p _ d h₁⟩
      simp only [ht, Bool.false_eq_true, if_false]
  | true =>
      cases hst : pyGet p "special_text" (.str "") with
      | str t =>
          have htt : (PyVal.str t).truthy = true := by rw [← hst]; exact ht
          refine ⟨pySet (pySet p "is_on_special" (.bool true)) "special_text"
            (.str (pyStrip t)), ?_, fun key d h₁ h₂ => ?_⟩
          · simp only [hst, htt, if_true]
          · rw [pyGet_pySet_ne _ _ d h₂, pyGet_pySet_ne p _ d h₁]
      | none => rw [hst] at ht; simp [PyVal.truthy] at ht
      | bool b => rw [hst] at h; simp [isStrVal] at h
      | num q => rw [hst] at h; simp [isStrVal] at h

theorem saveStep_ok (p : Record)
    (hw : (pyGet p "was_price_value" (.num 0)).toNum?.isSome = true)
    (hc : (pyGet p "price_value" (.num 0)).toNum?.isSome = true) :
    ∃ q, saveStep p = .ok q ∧
      ∀ (key : String) (d : PyVal), key ≠ "save_value" →
        pyGet q key d = pyGet p key d := by
  unfold saveStep
  obtain ⟨w, hww⟩ := Option.isSome_iff_exists.mp hw
  obtain ⟨c, hcc⟩ := Option.isSome_iff_exists.mp hc
  cases hs : pyEq (pyGet p "save_value" (.num 0)) (.num 0) with
  | false =>
      refine ⟨p, ?_, fun _ _ _ => rfl⟩
      simp only [hs, Bool.false_eq_true, if_false]
  | true =>
      simp only [hs, if_true, pyGt0, hww, hcc, pySub]
      cases hwp : decide (0 < w) with
      | false => exact ⟨p, rfl, fun _ _ _ => rfl⟩
      | true =>
          cases hcp : decide (0 < c) with
          | false => exact ⟨p, rfl, fun _ _ _ => rfl⟩
          | true =>
              exact ⟨_, rfl, fun key d h₁ => pyGet_pySet_ne p _ d h₁⟩

theorem buildStep_ok (now : String) (p : Record)
    (ht : isStrVal (pyGet p "title" (.str "")) = true) :
    ∃ r, buildStep now p = .ok r := by
  unfold buildStep
  cases hv : pyGet p "title" (.str "") with
  | str t => exact ⟨_, rfl⟩
  | none => rw [hv] at ht; simp [isStrVal] at ht
  | bool b => rw [hv] at ht; simp [isStrVal] at ht
  | num q => rw [hv] at ht; simp [isStrVal] at ht

theorem processOne_total_of_safe (now : String) (p : Record)
    (h : SafeRecord p = true) : ∃ o, processOne now p = .ok o := by
  unfold SafeRecord at h
  simp only [Bool.and_eq_true] at h
  obtain ⟨⟨⟨⟨⟨htl, hurl⟩, hup⟩, hsp⟩, hwn⟩, hcn⟩ := h
  cases ht : (pyGet p "title" (.str "")).truthy with
  | false =>
      refine ⟨Option.none, ?_⟩
      simp only [processOne, ht, Bool.false_eq_true, if_false]
  | true =>
      obtain ⟨p₁, hid, hidg⟩ := idStep_ok p hurl
      have hv₂ := fun (key : String) (d : PyVal) (h₁ : key ≠ "id")
        (h₂ : key ≠ "vendor") => (vendorStep_get p₁ key d h₂).trans (hidg key d h₁)
      obtain ⟨p₃, hunit, hug⟩ := unitRateStep_ok (vendorStep p₁)
        (by rw [hv₂ "unit_price" (.str "") (by decide) (by decide)]; exact hup)
      obtain ⟨p₄, hspec, hsg⟩ := specialStep_ok p₃
        (by rw [hug "special_text" (.str "") (by decide) (by decide) (by decide),
          hv₂ "special_text" (.str "") (by decide) (by decide)]; exact hsp)
      obtain ⟨p₅, hsave, hsvg⟩ := saveStep_ok p₄
        (by rw [hsg "was_price_value" (.num 0) (by decide) (by decide),
          hug "was_price_value" (.num 0) (by decide) (by decide) (by decide),
          hv₂ "was_price_value" (.num 0) (by decide) (by decide)]; exact hwn)
        (by rw [hsg "price_value" (.num 0) (by decide) (by decide),
          hug "price_value" (.num 0) (by decide) (by decide) (by decide),
          hv₂ "price_value" (.num 0) (by decide) (by decide)]; exact hcn)
      obtain ⟨r, hbuild⟩ := buildStep_ok now p₅
        (by rw [hsvg "title" (.str "") (by decide),
          hsg "title" (.str "") (by decide) (by decide),
          hug "title" (.str "") (by decide) (by decide) (by decide),
          hv₂ "title" (.str "") (by decide) (by decide)]; exact htl)
      refine ⟨some r, ?_⟩
      simp only [processOne, ht, if_true, hid, hunit, hspec, hsave, hbuild,
        Except.map]

/-- C1 (amended): over scalar-valued string-keyed mappings with arbitrarily
missing fields, `process_products` returns normally provided the present
`title`, `url`, `unit_price` and `special_text` values are strings and the
`was_price_value`/`price_value` values are numeric (numbers or booleans);
`remove_duplicates` (a pure function here) never raises on such records.
Without the typing proviso the original claim fails, per the
counterexample. -/
theorem processProducts_total_of_safe (now : String) (ps : List Record)
    (h : ∀ p ∈ ps, SafeRecord p = true) :
    ∃ out, processProducts now ps = .ok out := by
  induction ps with
  | nil => exact ⟨[], rfl⟩
  | cons p ps ih =>
      obtain ⟨o, ho⟩ := processOne_total_of_safe now p (h p (List.mem_cons_self p ps))
      obtain ⟨out, hout⟩ := ih (fun q hq => h q (List.mem_cons_of_mem p hq))
      cases o with
      | none => exact ⟨out, by simp only [processProducts, ho, hout]⟩
      | some r => exact ⟨r :: out, by simp only [processProducts, ho, hout]⟩

theorem processProducts_total_of_safe_witness :
    ∃ out, processProducts "T"
      [[("title", PyVal.str "Bread"), ("price_value", PyVal.num 3)]] = .ok out :=
  processProducts_total_of_safe "T"
    [[("title", PyVal.str "Bread"), ("price_value", PyVal.num 3)]]
    (by decide)

/-! ## C4: pseudo-key fallback -/

theorem pyGet_pySet_self (r : Record) (k : String) (v d : PyVal) :
    pyGet (pySet r k v) k d = v := by
  unfold pyGet
  rw [pyLookup_pySet_self]
  rfl

theorem str_append_left_cancel {s a b : String} (h : s ++ a = s ++ b) :
    a = b := by
  have hd := congrArg String.data h
  rw [String.data_append, String.data_append] at hd
  have hab := List.append_cancel_left hd
  cases a
  cases b
  simp only at hab
  rw [hab]

/-- C4: two records with empty ids and the same title: if their
`price_value`s (numbers) are equal the second is a duplicate via the
synthetic `title-price` key; if they differ, both are kept in `unique`. -/
theorem removeDuplicates_pseudoKey_fallback (t : String) (p₁ p₂ : ℚ)
    (r₁ r₂ : Record)
    (hid₁ : pyGet r₁ "id" (.str "") = .str "")
    (hid₂ : pyGet r₂ "id" (.str "") = .str "")
    (ht₁ : pyGet r₁ "title" (.str "") = .str t)
    (ht₂ : pyGet r₂ "title" (.str "") = .str t)
    (hp₁ : pyGet r₁ "price_value" (.num 0) = .num p₁)
    (hp₂ : pyGet r₂ "price_value" (.num 0) = .num p₂) :
    removeDuplicates [r₁, r₂] =
      if p₁ = p₂ then ([r₁], [r₂]) else ([r₁, r₂], []) := by
  have hk₁ : dedupKey r₁ = .str (t ++ "-" ++ pyStrNum p₁) := by
    unfold dedupKey
    rw [hid₁, ht₁, hp₁]
    simp [PyVal.truthy, pyStr]
  have hk₂ : dedupKey r₂ = .str (t ++ "-" ++ pyStrNum p₂) := by
    unfold dedupKey
    rw [hid₂, ht₂, hp₂]
    simp [PyVal.truthy, pyStr]
  show rdLoop [] [r₁, r₂] = _
  simp only [rdLoop, memPyEq, List.any_nil, List.any_cons, Bool.or_false,
    hk₁, hk₂, Bool.false_eq_true, if_false, pyEq]
  by_cases hpp : p₁ = p₂
  · subst hpp
    simp
  · have hne : ¬(t ++ "-" ++ pyStrNum p₂ = t ++ "-" ++ pyStrNum p₁) := by
      intro he
      exact hpp (pyStrNum_inj (str_append_left_cancel he)).symm
    simp [hne, hpp]

theorem removeDuplicates_pseudoKey_fallback_witness :
    removeDuplicates
        [[("id", PyVal.str ""), ("title", PyVal.str "Milk 2L"),
          ("price_value", PyVal.num (mkRat 7 2))],
         [("id", PyVal.str ""), ("title", PyVal.str "Milk 2L"),
          ("price_value", PyVal.num (mkRat 7 2))]] =
      ([[("id", PyVal.str ""), ("title", PyVal.str "Milk 2L"),
          ("price_value", PyVal.num (mkRat 7 2))]],
       [[("id", PyVal.str ""), ("title", PyVal.str "Milk 2L"),
          ("price_value", PyVal.num (mkRat 7 2))]]) ∧
    removeDuplicates
        [[("id", PyVal.str ""), ("title", PyVal.str "Milk 2L"),
          ("price_value", PyVal.num (mkRat 7 2))],
         [("id", PyVal.str ""), ("title", PyVal.str "Milk 2L"),
          ("price_value", PyVal.num (mkRat 18 5))]] =
      ([[("id", PyVal.str ""), ("title", PyVal.str "Milk 2L"),
          ("price_value", PyVal.num (mkRat 7 2))],
         [("id", PyVal.str ""), ("title", PyVal.str "Milk 2L"),
          ("price_value", PyVal.num (mkRat 18 5))]], []) := by
  constructor
  · have h := removeDuplicates_pseudoKey_fallback "Milk 2L" (mkRat 7 2)
      (mkRat 7 2)
      [("id", PyVal.str ""), ("title", PyVal.str "Milk 2L"),
        ("price_value", PyVal.num (mkRat 7 2))]
      [("id", PyVal.str ""), ("title", PyVal.str "Milk 2L"),
        ("price_value", PyVal.num (mkRat 7 2))]
      (by decide) (by decide) (by decide) (by decide) (by decide) (by decide)
    rwa [if_pos rfl] at h
  · have h := removeDuplicates_pseudoKey_fallback "Milk 2L" (mkRat 7 2)
      (mkRat 18 5)
      [("id", PyVal.str ""), ("title", PyVal.str "Milk 2L"),
        ("price_value", PyVal.num (mkRat 7 2))]
      [("id", PyVal.str ""), ("title", PyVal.str "Milk 2L"),
        ("price_value", PyVal.num (mkRat 18 5))]
      (by decide) (by decide) (by decide) (by decide) (by decide) (by decide)
    rwa [if_neg (by decide)] at h

/-! ## C5: save-value derivation -/

theorem idStep_preserves {p q : Record} (h : idStep p = .ok q)
    (key : String) (d : PyVal) (hk : key ≠ "id") :
    pyGet q key d = pyGet p key d := by
  unfold idStep at h
  cases hc : (decide ((((pyLookup p "id").getD .none)).truthy = false) &&
      (((pyLookup p "url").getD .none)).truthy) with
  | false =>
      simp only [hc, Bool.false_eq_true, if_false, Except.ok.injEq] at h
      subst h
      rfl
  | true =>
      simp only [hc, if_true] at h
      cases hv : (pyLookup p "url").getD .none with
      | str u =>
          simp only [hv] at h
          cases he : extractTrailingId u with
          | some ds =>
              rw [he] at h
              simp only [Except.ok.injEq] at h
              subst h
              exact pyGet_pySet_ne p _ d hk
          | none =>
              rw [he] at h
              simp only [Except.ok.injEq] at h
              subst h
              rfl
      | none => rw [hv] at h; simp at h
      | bool b => rw [hv] at h; simp at h
      | num n => rw [hv] at h; simp at h

theorem unitRateStep_preserves {p q : Record} (h : unitRateStep p = .ok q)
    (key : String) (d : PyVal) (h₁ : key ≠ "unit_price")
    (h₂ : key ≠ "rate_value") (h₃ : key ≠ "rate_unit") :
    pyGet q key d = pyGet p key d := by
  unfold unitRateStep at h
  cases ht : (pyGet p "unit_price" (.str "")).truthy with
  | false =>
      simp only [ht, Bool.false_eq_true, if_false, Except.ok.injEq] at h
      subst h
      rfl
  | true =>
      simp only [ht, if_true] at h
      cases hv : pyGet p "unit_price" (.str "") with
      | str s =>
          simp only [hv] at h
          by_cases hs : pyStrip (firstSeg s) = ""
          · rw [if_pos hs] at h
            simp only [Except.ok.injEq] at h
            subst h
            exact pyGet_pySet_ne p _ d h₁
          · rw [if_neg hs] at h
            cases he : extractRate (pyStrip (firstSeg s)) with
            | some vu =>
                rw [he] at h
                simp only [Except.ok.injEq] at h
                subst h
                rw [pyGet_pySet_ne _ _ d h₃, pyGet_pySet_ne _ _ d h₂,
                  pyGet_pySet_ne p _ d h₁]
            | none =>
                rw [he] at h
                simp only [Except.ok.injEq] at h
                subst h
                exact pyGet_pySet_ne p _ d h₁
      | none => rw [hv] at h; simp at h
      | bool b => rw [hv] at h; simp at h
      | num n => rw [hv] at h; simp at h

theorem specialStep_preserves {p q : Record} (h : specialStep p = .ok q)
    (key : String) (d : PyVal) (h₁ : key ≠ "is_on_special")
    (h₂ : key ≠ "special_text") : pyGet q key d = pyGet p key d := by
  unfold specialStep at h
  cases ht : (pyGet p "special_text" (.str "")).truthy with
  | false =>
      simp only [ht, Bool.false_eq_true, if_false, Except.ok.injEq] at h
      subst h
      exact pyGet_pySet_ne p _ d h₁
  | true =>
      simp only [ht, if_true] at h
      cases hv : pyGet p "special_text" (.str "") with
      | str t =>
          simp only [hv, Except.ok.injEq] at h
          subst h
          rw [pyGet_pySet_ne _ _ d h₂, pyGet_pySet_ne p _ d h₁]
      | none => rw [hv] at h; simp at h
      | bool b => rw [hv] at h; simp at h
      | num n => rw [hv] at h; simp at h

theorem saveStep_preserves {p q : Record} (h : saveStep p = .ok q)
    (key : String) (d : PyVal) (hk : key ≠ "save_value") :
    pyGet q key d = pyGet p key d := by
  unfold saveStep at h
  cases hs : pyEq (pyGet p "save_value" (.num 0)) (.num 0) with
  | false =>
      simp only [hs, Bool.false_eq_true, if_false, Except.ok.injEq] at h
      subst h
      rfl
  | true =>
      simp only [hs, if_true] at h
      cases hg : pyGt0 (pyGet p "was_price_value" (.num 0)) with
      | error e => rw [hg] at h; simp at h
      | ok b =>
          rw [hg] at h
          cases b with
          | false => simp only [Except.ok.injEq] at h; subst h; rfl
          | true =>
              cases hg2 : pyGt0 (pyGet p "price_value" (.num 0)) with
              | error e => rw [hg2] at h; simp at h
              | ok b₂ =>
                  rw [hg2] at h
                  cases b₂ with
                  | false => simp only [Except.ok.injEq] at h; subst h; rfl
                  | true =>
                      cases hsub : pySub (pyGet p "was_price_value" (.num 0))
                          (pyGet p "price_value" (.num 0)) with
                      | error e => rw [hsub] at h; simp at h
                      | ok dd =>
                          rw [hsub] at h
                          simp only [Except.ok.injEq] at h
                          subst h
                          exact pyGet_pySet_ne p _ d hk

theorem pyEq_num_iff {a b : ℚ} : pyEq (.num a) (.num b) = true ↔ a = b := by
  simp [pyEq, PyVal.toNum?]

/-- Behavior of lines 79-86 on the `save_value` field, for numeric
fields. -/
theorem saveStep_save {p q : Record} (w c s : ℚ)
    (hw : pyGet p "was_price_value" (.num 0) = .num w)
    (hc : pyGet p "price_value" (.num 0) = .num c)
    (hs : pyGet p "save_value" (.num 0) = .num s)
    (h : saveStep p = .ok q) :
    pyGet q "save_value" (.num 0) =
      .num (if s = 0 ∧ 0 < w ∧ 0 < c then round2 (w - c) else s) := by
  unfold saveStep at h
  rw [hw, hc, hs] at h
  cases h0 : pyEq (.num s) (.num 0) with
  | false =>
      have hs0 : ¬(s = 0) := fun he => by
        rw [pyEq_num_iff.mpr he] at h0
        cases h0
      simp only [h0, Bool.false_eq_true, if_false, Except.ok.injEq] at h
      subst h
      rw [hs]
      simp [hs0]
  | true =>
      have hs0 : s = 0 := pyEq_num_iff.mp h0
      simp only [h0, if_true, pyGt0, PyVal.toNum?, pySub] at h
      by_cases hw0 : 0 < w
      · by_cases hc0 : 0 < c
        · simp only [hw0, hc0] at h
          simp at h
          subst h
          rw [pyGet_pySet_self]
          rw [if_pos ⟨hs0, hw0, hc0⟩, ratSub_eq]
        · simp only [hw0, hc0] at h
          simp at h
          subst h
          rw [hs]
          rw [if_neg (fun hcon => hc0 hcon.2.2)]
      · simp only [hw0] at h
        simp at h
        subst h
        rw [hs]
        rw [if_neg (fun hcon => hw0 hcon.2.1)]

theorem buildStep_save {now : String} {p r : Record} (h : buildStep now p = .ok r)
    {q : ℚ} (hv : pyGet p "save_value" (.num 0) = .num q) :
    pyGet r "save_value" (.num 0) = .num q := by
  cases htv : pyGet p "title" (.str "") with
  | str t =>
      simp only [buildStep, htv, Except.ok.injEq] at h
      subst h
      have hlit : pyLookup (buildList now p t) "save_value" =
          some (pyGet p "save_value" (.num 0)) := rfl
      unfold pyGet
      rw [pyLookup_filterNone (v := .num q) (by rw [hlit, hv]) (by simp)]
      rfl
  | none => simp [buildStep, htv] at h
  | bool b => simp [buildStep, htv] at h
  | num n => simp [buildStep, htv] at h

theorem processOne_decompose {now : String} {p r : Record}
    (h : processOne now p = .ok (some r)) :
    (pyGet p "title" (.str "")).truthy = true ∧
    ∃ p₁ p₃ p₄ p₅, idStep p = .ok p₁ ∧ unitRateStep (vendorStep p₁) = .ok p₃ ∧
      specialStep p₃ = .ok p₄ ∧ saveStep p₄ = .ok p₅ ∧
      buildStep now p₅ = .ok r := by
  unfold processOne at h
  cases ht : (pyGet p "title" (.str "")).truthy with
  | false => simp only [ht, Bool.false_eq_true, if_false] at h; simp at h
  | true =>
      simp only [ht, if_true] at h
      refine ⟨rfl, ?_⟩
      cases h₁ : idStep p with
      | error e => rw [h₁] at h; simp at h
      | ok p₁ =>
          simp only [h₁] at h
          cases h₃ : unitRateStep (vendorStep p₁) with
          | error e => rw [h₃] at h; simp at h
          | ok p₃ =>
              simp only [h₃] at h
              cases h₄ : specialStep p₃ with
              | error e => rw [h₄] at h; simp at h
              | ok p₄ =>
                  simp only [h₄] at h
                  cases h₅ : saveStep p₄ with
                  | error e => rw [h₅] at h; simp at h
                  | ok p₅ =>
                      simp only [h₅] at h
                      cases hb : buildStep now p₅ with
                      | error e => rw [hb] at h; simp [Except.map] at h
                      | ok rr =>
                          simp only [hb] at h
                          simp only [Except.map, Except.ok.injEq,
                            Option.some.injEq] at h
                          subst h
                          exact ⟨p₁, p₃, p₄, p₅, rfl, h₃, h₄, h₅, hb⟩

/-- C5: for numeric raw fields, the produced record's `save_value` is
`round(was_price_value - price_value, 2)` exactly when the raw
`save_value` is zero and both operands are strictly positive; otherwise
the raw `save_value` is passed through unchanged, even when it disagrees
with `was_price_value - price_value`. -/
theorem saveValue_derivation (now : String) (p r : Record) (w c s : ℚ)
    (hw : pyGet p "was_price_value" (.num 0) = .num w)
    (hc : pyGet p "price_value" (.num 0) = .num c)
    (hs : pyGet p "save_value" (.num 0) = .num s)
    (h : processOne now p = .ok (some r)) :
    pyGet r "save_value" (.num 0) =
      .num (if s = 0 ∧ 0 < w ∧ 0 < c then round2 (w - c) else s) := by
  obtain ⟨ht, p₁, p₃, p₄, p₅, h₁, h₃, h₄, h₅, hb⟩ := processOne_decompose h
  have hw₄ : pyGet p₄ "was_price_value" (.num 0) = .num w := by
    rw [specialStep_preserves h₄ _ _ (by decide) (by decide),
      unitRateStep_preserves h₃ _ _ (by decide) (by decide) (by decide),
      vendorStep_get _ _ _ (by decide), idStep_preserves h₁ _ _ (by decide)]
    exact hw
  have hc₄ : pyGet p₄ "price_value" (.num 0) = .num c := by
    rw [specialStep_preserves h₄ _ _ (by decide) (by decide),
      unitRateStep_preserves h₃ _ _ (by decide) (by decide) (by decide),
      vendorStep_get _ _ _ (by decide), idStep_preserves h₁ _ _ (by decide)]
    exact hc
  have hs₄ : pyGet p₄ "save_value" (.num 0) = .num s := by
    rw [specialStep_preserves h₄ _ _ (by decide) (by decide),
      unitRateStep_preserves h₃ _ _ (by decide) (by decide) (by decide),
      vendorStep_get _ _ _ (by decide), idStep_preserves h₁ _ _ (by decide)]
    exact hs
  exact buildStep_save hb (saveStep_save w c s hw₄ hc₄ hs₄ h₅)

theorem saveValue_derivation_witness :
    pyGet [("id", PyVal.str ""), ("title", PyVal.str "A"),
        ("price_value", PyVal.num 4), ("was_price_value", PyVal.num 5),
        ("save_value", PyVal.num (mkRat 5 2)), ("unit_price", PyVal.str ""),
        ("url", PyVal.str ""), ("image_url", PyVal.str ""),
        ("category", PyVal.str ""), ("page", PyVal.num 0),
        ("vendor", PyVal.str "coles"), ("is_on_special", PyVal.bool false),
        ("special_text", PyVal.str ""), ("rate_value", PyVal.num 0),
        ("rate_unit", PyVal.str ""), ("scrapedAt", PyVal.str "T")]
      "save_value" (.num 0) =
      .num (if mkRat 5 2 = 0 ∧ 0 < (5 : ℚ) ∧ 0 < (4 : ℚ)
        then round2 ((5 : ℚ) - 4) else mkRat 5 2) :=
  saveValue_derivation "T"
    [("title", PyVal.str "A"), ("price_value", PyVal.num 4),
      ("was_price_value", PyVal.num 5), ("save_value", PyVal.num (mkRat 5 2))]
    _ 5 4 (mkRat 5 2) (by decide) (by decide) (by decide) (by decide)

/-! ## C6: rejection is the only removal; order is preserved -/

theorem processOne_ok_none_iff (now : String) (p : Record) :
    processOne now p = .ok Option.none ↔
      (pyGet p "title" (.str "")).truthy = false := by
  constructor
  · intro h
    cases ht : (pyGet p "title" (.str "")).truthy with
    | false => rfl
    | true =>
        exfalso
        unfold processOne at h
        simp only [ht, if_true] at h
        cases h₁ : idStep p with
        | error e => rw [h₁] at h; simp at h
        | ok p₁ =>
            simp only [h₁] at h
            cases h₃ : unitRateStep (vendorStep p₁) with
            | error e => rw [h₃] at h; simp at h
            | ok p₃ =>
                simp only [h₃] at h
                cases h₄ : specialStep p₃ with
                | error e => rw [h₄] at h; simp at h
                | ok p₄ =>
                    simp only [h₄] at h
                    cases h₅ : saveStep p₄ with
                    | error e => rw [h₅] at h; simp at h
                    | ok p₅ =>
                        simp only [h₅] at h
                        cases hb : buildStep now p₅ with
                        | error e => rw [hb] at h; simp [Except.map] at h
                        | ok rr => rw [hb] at h; simp [Except.map] at h
  · intro h
    unfold processOne
    simp [h]

theorem processProducts_forall₂ (now : String) (ps : List Record) :
    ∀ out, processProducts now ps = .ok out →
      List.Forall₂ (fun p r => processOne now p = .ok (some r))
        (ps.filter (fun p => (pyGet p "title" (.str "")).truthy)) out := by
  induction ps with
  | nil =>
      intro out h
      injection h with h
      subst h
      exact List.Forall₂.nil
  | cons p ps ih =>
      intro out h
      unfold processProducts at h
      cases hpo : processOne now p with
      | error e => rw [hpo] at h; simp at h
      | ok o =>
          simp only [hpo] at h
          cases o with
          | none =>
              have htf := (processOne_ok_none_iff now p).mp hpo
              rw [List.filter_cons_of_neg (by simp [htf])]
              exact ih out h
          | some r =>
              have htt : (pyGet p "title" (.str "")).truthy = true := by
                cases htc : (pyGet p "title" (.str "")).truthy with
                | true => rfl
                | false =>
                    rw [(processOne_ok_none_iff now p).mpr htc] at hpo
                    simp at hpo
              rw [List.filter_cons_of_pos (by simp [htt])]
              cases hrec : processProducts now ps with
              | error e => rw [hrec] at h; simp at h
              | ok out' =>
                  simp only [hrec, Except.ok.injEq] at h
                  subst h
                  exact List.Forall₂.cons hpo (ih out' hrec)

/-- C6: when `process_products` returns, its output is exactly the
in-order image of the input records whose title is truthy: the kept
records correspond pairwise, in order, to the title-bearing inputs (so
nothing is duplicated or reordered), and a record maps to "skipped"
precisely when its title is falsy — rejection is the only removal. -/
theorem processProducts_rejection_filter (now : String) (ps out : List Record)
    (h : processProducts now ps = .ok out) :
    List.Forall₂ (fun p r => processOne now p = .ok (some r))
      (ps.filter (fun p => (pyGet p "title" (.str "")).truthy)) out ∧
    ∀ p, processOne now p = .ok Option.none ↔
      (pyGet p "title" (.str "")).truthy = false :=
  ⟨processProducts_forall₂ now ps out h, fun p => processOne_ok_none_iff now p⟩

theorem processProducts_rejection_filter_witness :
    List.Forall₂ (fun p r => processOne "T" p = .ok (some r))
      (List.filter (fun p => (pyGet p "title" (.str "")).truthy)
        [[("title", PyVal.str "A")], [("page", PyVal.num 3)]])
      [[("id", PyVal.str ""), ("title", PyVal.str "A"),
        ("price_value", PyVal.num 0), ("was_price_value", PyVal.num 0),
        ("save_value", PyVal.num 0), ("unit_price", PyVal.str ""),
        ("url", PyVal.str ""), ("image_url", PyVal.str ""),
        ("category", PyVal.str ""), ("page", PyVal.num 0),
        ("vendor", PyVal.str "coles"), ("is_on_special", PyVal.bool false),
        ("special_text", PyVal.str ""), ("rate_value", PyVal.num 0),
        ("rate_unit", PyVal.str ""), ("scrapedAt", PyVal.str "T")]] :=
  (processProducts_rejection_filter "T"
    [[("title", PyVal.str "A")], [("page", PyVal.num 3)]] _ (by decide)).1

/-! ## C7: cross-category duplicate detection -/

/-- Accumulator well-formedness: every stored group key is truthy and group
keys are pairwise distinct for Python equality (the dict invariant). -/
def WfAcc (acc : List (PyVal × List (String × Record))) : Prop :=
  (∀ e ∈ acc, e.1.truthy = true) ∧
  acc.Pairwise (fun e f => pyEq e.1 f.1 = false)

theorem assocAppend_key_mem {acc : List (PyVal × List (String × Record))}
    {k₀ : PyVal} {x : String × Record} {f : PyVal × List (String × Record)}
    (hf : f ∈ assocAppend acc k₀ x) : f.1 = k₀ ∨ ∃ e ∈ acc, f.1 = e.1 := by
  induction acc with
  | nil =>
      simp [assocAppend] at hf
      subst hf
      exact Or.inl rfl
  | cons e rest ih =>
      obtain ⟨k', xs⟩ := e
      cases hk : pyEq k' k₀ with
      | true =>
          simp only [assocAppend, hk, if_true] at hf
          rcases List.mem_cons.mp hf with rfl | hf
          · exact Or.inr ⟨(k', xs), List.mem_cons_self _ _, rfl⟩
          · exact Or.inr ⟨f, List.mem_cons_of_mem _ hf, rfl⟩
      | false =>
          simp only [assocAppend, hk, Bool.false_eq_true, if_false] at hf
          rcases List.mem_cons.mp hf with rfl | hf
          · exact Or.inr ⟨(k', xs), List.mem_cons_self _ _, rfl⟩
          · rcases ih hf with h | ⟨e, he, hfe⟩
            · exact Or.inl h
            · exact Or.inr ⟨e, List.mem_cons_of_mem _ he, hfe⟩

theorem assocAppend_wf {acc : List (PyVal × List (String × Record))}
    {k₀ : PyVal} {x : String × Record} (hw : WfAcc acc)
    (hk : k₀.truthy = true) : WfAcc (assocAppend acc k₀ x) := by
  induction acc with
  | nil =>
      refine ⟨?_, ?_⟩
      · intro e he
        simp [assocAppend] at he
        subst he
        exact hk
      · simp [assocAppend]
  | cons e rest ih =>
      obtain ⟨k', xs⟩ := e
      obtain ⟨hall, hpw⟩ := hw
      rw [List.pairwise_cons] at hpw
      cases hke : pyEq k' k₀ with
      | true =>
          simp only [assocAppend, hke, if_true]
          refine ⟨?_, ?_⟩
          · intro f hf
            rcases List.mem_cons.mp hf with rfl | hf
            · exact hall (k', xs) (List.mem_cons_self _ _)
            · exact hall f (List.mem_cons_of_mem _ hf)
          · rw [List.pairwise_cons]
            exact ⟨fun f hf => hpw.1 f hf, hpw.2⟩
      | false =>
          simp only [assocAppend, hke, Bool.false_eq_true, if_false]
          have ihw : WfAcc (assocAppend rest k₀ x) :=
            ih ⟨fun f hf => hall f (List.mem_cons_of_mem _ hf), hpw.2⟩
          refine ⟨?_, ?_⟩
          · intro f hf
            rcases List.mem_cons.mp hf with rfl | hf
            · exact hall (k', xs) (List.mem_cons_self _ _)
            · exact ihw.1 f hf
          · rw [List.pairwise_cons]
            refine ⟨?_, ihw.2⟩
            intro f hf
            rcases assocAppend_key_mem hf with hfk | ⟨e, he, hfe⟩
            · rw [hfk]
              exact hke
            · rw [hfe]
              exact hpw.1 e he

theorem lookupPyEq_assocAppend_eq
    (acc : List (PyVal × List (String × Record))) (k₀ : PyVal)
    (x : String × Record) (k : PyVal) (hkk : pyEq k₀ k = true) :
    lookupPyEq (assocAppend acc k₀ x) k =
      match lookupPyEq acc k with
      | some l => some (l ++ [x])
      | Option.none => some [x] := by
  induction acc with
  | nil => simp [assocAppend, lookupPyEq, hkk]
  | cons e rest ih =>
      obtain ⟨k', xs⟩ := e
      cases hke : pyEq k' k₀ with
      | true =>
          have hk'k : pyEq k' k = true := pyEq_trans hke hkk
          simp only [assocAppend, hke, if_true, lookupPyEq, List.find?_cons,
            hk'k]
          rfl
      | false =>
          have hk'k : pyEq k' k = false := by
            cases hc : pyEq k' k with
            | false => rfl
            | true =>
                rw [pyEq_trans hc (pyEq_symm hkk)] at hke
                cases hke
          simp only [assocAppend, hke, Bool.false_eq_true, if_false,
            lookupPyEq, List.find?_cons, hk'k]
          exact ih

theorem lookupPyEq_assocAppend_ne
    (acc : List (PyVal × List (String × Record))) (k₀ : PyVal)
    (x : String × Record) (k : PyVal) (hkk : pyEq k₀ k = false) :
    lookupPyEq (assocAppend acc k₀ x) k = lookupPyEq acc k := by
  induction acc with
  | nil => simp [assocAppend, lookupPyEq, hkk]
  | cons e rest ih =>
      obtain ⟨k', xs⟩ := e
      cases hke : pyEq k' k₀ with
      | true =>
          have hk'k : pyEq k' k = false := by
            cases hc : pyEq k' k with
            | false => rfl
            | true =>
                rw [pyEq_trans (pyEq_symm hke) hc] at hkk
                cases hkk
          simp only [assocAppend, hke, if_true, lookupPyEq, List.find?_cons,
            hk'k]
      | false =>
          simp only [assocAppend, hke, Bool.false_eq_true, if_false,
            lookupPyEq, List.find?_cons]
          cases hk'k : pyEq k' k with
          | true => simp [hk'k]
          | false => simp only [hk'k, Bool.false_eq_true, if_false]; exact ih

/-- The `(category, product)` pairs contributed by one category's list. -/
def pairsOfCat (cat : String) (ps : List Record) (k : PyVal) :
    List (String × Record) :=
  (ps.filter (fun p => pyEq (pidOf p) k)).map (fun p => (cat, p))

theorem addProduct_wf {acc : List (PyVal × List (String × Record))}
    (hw : WfAcc acc) (cat : String) (p : Record) :
    WfAcc (addProduct acc cat p) := by
  unfold addProduct
  cases ht : (pidOf p).truthy with
  | true => simp only [ht, if_true]; exact assocAppend_wf hw ht
  | false => simp only [ht, Bool.false_eq_true, if_false]; exact hw

theorem lookupPyEq_addProduct (acc : List (PyVal × List (String × Record)))
    (cat : String) (p : Record) (k : PyVal) (hk : k.truthy = true) :
    lookupPyEq (addProduct acc cat p) k =
      if pyEq (pidOf p) k then
        match lookupPyEq acc k with
        | some l => some (l ++ [(cat, p)])
        | Option.none => some [(cat, p)]
      else lookupPyEq acc k := by
  unfold addProduct
  cases hpe : pyEq (pidOf p) k with
  | true =>
      have hpt : (pidOf p).truthy = true := by rw [pyEq_truthy hpe]; exact hk
      simp only [hpt, if_true, hpe]
      exact lookupPyEq_assocAppend_eq acc _ _ k hpe
  | false =>
      cases hpt : (pidOf p).truthy with
      | true =>
          simp only [hpt, if_true, hpe, Bool.false_eq_true, if_false]
          exact lookupPyEq_assocAppend_ne acc _ _ k hpe
      | false => simp only [hpt, hpe, Bool.false_eq_true, if_false]

theorem lookupPyEq_addProduct_falsy
    (acc : List (PyVal × List (String × Record))) (cat : String) (p : Record)
    (k : PyVal) (hk : k.truthy = false) :
    lookupPyEq (addProduct acc cat p) k = lookupPyEq acc k := by
  unfold addProduct
  cases hpt : (pidOf p).truthy with
  | false => simp only [hpt, Bool.false_eq_true, if_false]
  | true =>
      simp only [hpt, if_true]
      apply lookupPyEq_assocAppend_ne
      cases hpe : pyEq (pidOf p) k with
      | false => rfl
      | true =>
          have htr := pyEq_truthy hpe
          rw [hpt, hk] at htr
          cases htr

theorem groupProducts_wf (ps : List Record) :
    ∀ acc cat, WfAcc acc → WfAcc (groupProducts acc cat ps) := by
  induction ps with
  | nil => intro acc cat hw; exact hw
  | cons p ps ih => intro acc cat hw; exact ih _ _ (addProduct_wf hw cat p)

theorem lookupPyEq_groupProducts (ps : List Record) :
    ∀ acc cat (k : PyVal), WfAcc acc → k.truthy = true →
      lookupPyEq (groupProducts acc cat ps) k =
        match lookupPyEq acc k with
        | some l => some (l ++ pairsOfCat cat ps k)
        | Option.none =>
            if pairsOfCat cat ps k = [] then Option.none
            else some (pairsOfCat cat ps k) := by
  induction ps with
  | nil =>
      intro acc cat k _ _
      show lookupPyEq acc k = _
      cases h : lookupPyEq acc k <;> simp [pairsOfCat]
  | cons p ps ih =>
      intro acc cat k hw hk
      show lookupPyEq (groupProducts (addProduct acc cat p) cat ps) k = _
      rw [ih (addProduct acc cat p) cat k (addProduct_wf hw cat p) hk,
        lookupPyEq_addProduct acc cat p k hk]
      cases hpe : pyEq (pidOf p) k with
      | true =>
          simp only [hpe, if_true]
          have hfil : pairsOfCat cat (p :: ps) k =
              (cat, p) :: pairsOfCat cat ps k := by
            simp [pairsOfCat, List.filter_cons, hpe]
          rw [hfil]
          cases h : lookupPyEq acc k with
          | some l => simp
          | none => simp
      | false =>
          simp only [hpe, Bool.false_eq_true, if_false]
          have hfil : pairsOfCat cat (p :: ps) k = pairsOfCat cat ps k := by
            simp [pairsOfCat, List.filter_cons, hpe]
          rw [hfil]

theorem lookupPyEq_groupProducts_falsy (ps : List Record) :
    ∀ acc cat (k : PyVal), k.truthy = false →
      lookupPyEq (groupProducts acc cat ps) k = lookupPyEq acc k := by
  induction ps with
  | nil => intro acc cat k _; rfl
  | cons p ps ih =>
      intro acc cat k hk
      show lookupPyEq (groupProducts (addProduct acc cat p) cat ps) k = _
      rw [ih _ cat k hk, lookupPyEq_addProduct_falsy acc cat p k hk]

theorem groupCats_wf (m : List (String × List Record)) :
    ∀ acc, WfAcc acc → WfAcc (groupCats acc m) := by
  induction m with
  | nil => intro acc hw; exact hw
  | cons cp m ih => intro acc hw; exact ih _ (groupProducts_wf cp.2 acc cp.1 hw)

theorem lookupPyEq_groupCats (m : List (String × List Record)) :
    ∀ acc (k : PyVal), WfAcc acc → k.truthy = true →
      lookupPyEq (groupCats acc m) k =
        match lookupPyEq acc k with
        | some l => some (l ++ allPairs m k)
        | Option.none =>
            if allPairs m k = [] then Option.none
            else some (allPairs m k) := by
  induction m with
  | nil =>
      intro acc k _ _
      show lookupPyEq acc k = _
      cases h : lookupPyEq acc k <;> simp [allPairs]
  | cons cp m ih =>
      intro acc k hw hk
      show lookupPyEq (groupCats (groupProducts acc cp.1 cp.2) m) k = _
      rw [ih _ k (groupProducts_wf cp.2 acc cp.1 hw) hk,
        lookupPyEq_groupProducts cp.2 acc cp.1 k hw hk]
      have hall : allPairs (cp :: m) k =
          pairsOfCat cp.1 cp.2 k ++ allPairs m k := by
        simp [allPairs, pairsOfCat]
      rw [hall]
      cases h : lookupPyEq acc k with
      | some l => simp
      | none =>
          by_cases hP : pairsOfCat cp.1 cp.2 k = []
          · simp [hP]
          · simp [hP]

theorem lookupPyEq_groupCats_falsy (m : List (String × List Record)) :
    ∀ acc (k : PyVal), k.truthy = false →
      lookupPyEq (groupCats acc m) k = lookupPyEq acc k := by
  induction m with
  | nil => intro acc k _; rfl
  | cons cp m ih =>
      intro acc k hk
      show lookupPyEq (groupCats (groupProducts acc cp.1 cp.2) m) k = _
      rw [ih _ k hk, lookupPyEq_groupProducts_falsy cp.2 acc cp.1 k hk]

theorem lookupPyEq_none_of_all {acc : List (PyVal × List (String × Record))}
    {k : PyVal} (h : ∀ f ∈ acc, pyEq f.1 k = false) :
    lookupPyEq acc k = Option.none := by
  unfold lookupPyEq
  rw [List.find?_eq_none.mpr (fun e he => by simp [h e he])]
  rfl

theorem lookupPyEq_filter
    (cond : (PyVal × List (String × Record)) → Bool) :
    ∀ (acc : List (PyVal × List (String × Record))) (k : PyVal), WfAcc acc →
      lookupPyEq (acc.filter cond) k =
        match acc.find? (fun e => pyEq e.1 k) with
        | some e => if cond e then some e.2 else Option.none
        | Option.none => Option.none := by
  intro acc
  induction acc with
  | nil => intro k _; rfl
  | cons e rest ih =>
      intro k hw
      obtain ⟨hall, hpw⟩ := hw
      rw [List.pairwise_cons] at hpw
      have hwr : WfAcc rest := ⟨fun f hf => hall f (List.mem_cons_of_mem _ hf),
        hpw.2⟩
      cases hpe : pyEq e.1 k with
      | true =>
          rw [List.find?_cons_of_pos (p := fun f : PyVal × List (String × Record) => pyEq f.1 k) rest hpe]
          by_cases hc : cond e = true
          · rw [List.filter_cons_of_pos hc]
            unfold lookupPyEq
            rw [List.find?_cons_of_pos (p := fun f : PyVal × List (String × Record) => pyEq f.1 k) _ hpe]
            simp [hc]
          · rw [List.filter_cons_of_neg (by simp [hc])]
            have hnone : lookupPyEq (rest.filter cond) k = Option.none := by
              apply lookupPyEq_none_of_all
              intro f hf
              have hfr : f ∈ rest := List.mem_of_mem_filter hf
              cases hfk : pyEq f.1 k with
              | false => rfl
              | true =>
                  have h1 := hpw.1 f hfr
                  rw [pyEq_trans hpe (pyEq_symm hfk)] at h1
                  cases h1
            rw [hnone]
            simp [hc]
      | false =>
          rw [List.find?_cons_of_neg (p := fun f : PyVal × List (String × Record) => pyEq f.1 k) rest
            (by simp [hpe])]
          by_cases hc : cond e = true
          · rw [List.filter_cons_of_pos hc]
            unfold lookupPyEq
            rw [List.find?_cons_of_neg (p := fun f : PyVal × List (String × Record) => pyEq f.1 k) _
              (by simp [hpe])]
            exact ih k hwr
          · rw [List.filter_cons_of_neg (by simp [hc])]
            exact ih k hwr

/-- C7: `find_cross_category_duplicates` groups products by truthy id only
(a falsy key is never present in the result), and its result contains
exactly those ids whose set of distinct categories has size at least two,
each mapped to the full in-order list of its `(category, product)` pairs:
in particular an id occurring several times within a single category does
not appear. -/
theorem findCross_characterization (m : List (String × List Record))
    (k : PyVal) :
    (k.truthy = false →
      lookupPyEq (findCrossCategoryDuplicates m) k = Option.none) ∧
    (k.truthy = true →
      lookupPyEq (findCrossCategoryDuplicates m) k =
        if 1 < distinctCats (allPairs m k) then some (allPairs m k)
        else Option.none) := by
  have hwnil : WfAcc ([] : List (PyVal × List (String × Record))) :=
    ⟨by simp, by simp⟩
  have hwf : WfAcc (groupCats [] m) := groupCats_wf m [] hwnil
  constructor
  · intro hk
    unfold findCrossCategoryDuplicates
    rw [lookupPyEq_filter _ _ k hwf]
    have hnone : lookupPyEq (groupCats [] m) k = Option.none := by
      rw [lookupPyEq_groupCats_falsy m [] k hk]
      rfl
    unfold lookupPyEq at hnone
    rw [Option.map_eq_none'.mp hnone]
  · intro hk
    unfold findCrossCategoryDuplicates
    rw [lookupPyEq_filter _ _ k hwf]
    have hg := lookupPyEq_groupCats m [] k hwnil hk
    cases hfind : (groupCats [] m).find? (fun e => pyEq e.1 k) with
    | none =>
        have hlk : lookupPyEq (groupCats [] m) k = Option.none := by
          unfold lookupPyEq
          rw [hfind]
          rfl
        rw [hlk] at hg
        by_cases hP : allPairs m k = []
        · rw [hP]
          simp [distinctCats]
        · rw [show lookupPyEq ([] : List (PyVal × List (String × Record))) k =
              Option.none from rfl] at hg
          rw [if_neg hP] at hg
          cases hg
    | some e =>
        have hlk : lookupPyEq (groupCats [] m) k = some e.2 := by
          unfold lookupPyEq
          rw [hfind]
          rfl
        rw [hlk] at hg
        rw [show lookupPyEq ([] : List (PyVal × List (String × Record))) k =
            Option.none from rfl] at hg
        by_cases hP : allPairs m k = []
        · rw [if_pos hP] at hg
          cases hg
        · rw [if_neg hP] at hg
          injection hg with hg
          show (if decide (1 < (List.map Prod.fst e.2).dedup.length) = true
              then some e.2 else Option.none) = _
          rw [hg]
          simp [distinctCats]

theorem findCross_characterization_witness :
    lookupPyEq (findCrossCategoryDuplicates
        [("bakery", [[("id", PyVal.str "999"), ("title", PyVal.str "Bread")]]),
         ("dairy", [[("id", PyVal.str "999"), ("title", PyVal.str "Scone")]])])
      (.str "999") =
      if 1 < distinctCats (allPairs
          [("bakery", [[("id", PyVal.str "999"), ("title", PyVal.str "Bread")]]),
           ("dairy", [[("id", PyVal.str "999"), ("title", PyVal.str "Scone")]])]
          (.str "999"))
      then some (allPairs
          [("bakery", [[("id", PyVal.str "999"), ("title", PyVal.str "Bread")]]),
           ("dairy", [[("id", PyVal.str "999"), ("title", PyVal.str "Scone")]])]
          (.str "999"))
      else Option.none :=
  (findCross_characterization
    [("bakery", [[("id", PyVal.str "999"), ("title", PyVal.str "Bread")]]),
     ("dairy", [[("id", PyVal.str "999"), ("title", PyVal.str "Scone")]])]
    (.str "999")).2 (by decide)

/-! ## C8: idempotence of `process_products` -/

/-- C8 counterexample: a whitespace-only `special_text` yields an output
record with `is_on_special = True` and `special_text = ""`; a second pass
flips `is_on_special` to `False`, so `process_products` is not idempotent
on its own output. -/
theorem processProducts_not_idempotent_on_whitespace_special :
    processProducts "T" [[("title", PyVal.str "X"), ("special_text", PyVal.str " ")]] =
      .ok [[("id", PyVal.str ""), ("title", PyVal.str "X"),
        ("price_value", PyVal.num 0), ("was_price_value", PyVal.num 0),
        ("save_value", PyVal.num 0), ("unit_price", PyVal.str ""),
        ("url", PyVal.str ""), ("image_url", PyVal.str ""),
        ("category", PyVal.str ""), ("page", PyVal.num 0),
        ("vendor", PyVal.str "coles"), ("is_on_special", PyVal.bool true),
        ("special_text", PyVal.str ""), ("rate_value", PyVal.num 0),
        ("rate_unit", PyVal.str ""), ("scrapedAt", PyVal.str "T")]] ∧
    processProducts "T"
      [[("id", PyVal.str ""), ("title", PyVal.str "X"),
        ("price_value", PyVal.num 0), ("was_price_value", PyVal.num 0),
        ("save_value", PyVal.num 0), ("unit_price", PyVal.str ""),
        ("url", PyVal.str ""), ("image_url", PyVal.str ""),
        ("category", PyVal.str ""), ("page", PyVal.num 0),
        ("vendor", PyVal.str "coles"), ("is_on_special", PyVal.bool true),
        ("special_text", PyVal.str ""), ("rate_value", PyVal.num 0),
        ("rate_unit", PyVal.str ""), ("scrapedAt", PyVal.str "T")]] =
      .ok [[("id", PyVal.str ""), ("title", PyVal.str "X"),
        ("price_value", PyVal.num 0), ("was_price_value", PyVal.num 0),
        ("save_value", PyVal.num 0), ("unit_price", PyVal.str ""),
        ("url", PyVal.str ""), ("image_url", PyVal.str ""),
        ("category", PyVal.str ""), ("page", PyVal.num 0),
        ("vendor", PyVal.str "coles"), ("is_on_special", PyVal.bool false),
        ("special_text", PyVal.str ""), ("rate_value", PyVal.num 0),
        ("rate_unit", PyVal.str ""), ("scrapedAt", PyVal.str "T")]] ∧
    (PyVal.bool true : PyVal) ≠ PyVal.bool false := by
  refine ⟨?_, ?_, by decide⟩
  · decide
  · decide

theorem truthy_getD (r : Record) (k : String) :
    (((pyLookup r k).getD .none)).truthy = (pyGet r k (.str "")).truthy := by
  unfold pyGet
  cases pyLookup r k <;> rfl

theorem extractTrailingId_ne_empty {u : String} {ds : String}
    (h : extractTrailingId u = some ds) : ds ≠ "" := by
  unfold extractTrailingId at h
  by_cases hds : (u.data.reverse.takeWhile Char.isDigit).isEmpty = true
  · rw [if_pos hds] at h
    cases h
  · rw [if_neg hds] at h
    cases hdrop : u.data.reverse.drop
        (u.data.reverse.takeWhile Char.isDigit).length with
    | nil => rw [hdrop] at h; cases h
    | cons c rest =>
        simp only [hdrop] at h
        by_cases hc : c = '-'
        · rw [if_pos hc] at h
          injection h with h
          subst h
          intro he
          have hdata := congrArg String.data he
          simp only [List.isEmpty_iff] at hds
          have : (u.data.reverse.takeWhile Char.isDigit).reverse = [] := hdata
          rw [List.reverse_eq_nil_iff] at this
          exact hds this
        · rw [if_neg hc] at h
          cases h

theorem filter_eq_of_length {α : Type _} {q : α → Bool} {l : List α}
    (h : (l.filter q).length = l.length) : l.filter q = l := by
  induction l with
  | nil => rfl
  | cons a l ih =>
      cases hq : q a with
      | true =>
          rw [List.filter_cons_of_pos hq] at h ⊢
          simp only [List.length_cons, Nat.add_right_cancel_iff] at h
          rw [ih h]
      | false =>
          rw [List.filter_cons_of_neg (by simp [hq])] at h
          have hle := List.length_filter_le q l
          simp only [List.length_cons] at h
          omega

/-- After a successful id step, either the id is truthy or no further id
could ever be derived from the url. -/
theorem idStep_fix_condition {p p₁ : Record} (h : idStep p = .ok p₁) :
    (pyGet p₁ "id" (.str "")).truthy = true ∨
      ((pyGet p₁ "url" (.str "")).truthy = false ∨
       ∃ u, pyGet p₁ "url" (.str "") = .str u ∧
         extractTrailingId u = Option.none) := by
  unfold idStep at h
  cases hc : (decide ((((pyLookup p "id").getD .none)).truthy = false) &&
      (((pyLookup p "url").getD .none)).truthy) with
  | false =>
      simp only [hc, Bool.false_eq_true, if_false, Except.ok.injEq] at h
      subst h
      rw [Bool.and_eq_false_iff] at hc
      rcases hc with hc | hc
      · left
        rw [← truthy_getD]
        simp only [decide_eq_false_iff_not, Bool.not_eq_false] at hc
        exact hc
      · right
        left
        rw [← truthy_getD]
        exact hc
  | true =>
      simp only [hc, if_true] at h
      cases hv : (pyLookup p "url").getD .none with
      | str u =>
          simp only [hv] at h
          have hlu : pyLookup p "url" = some (.str u) := by
            cases hl : pyLookup p "url" with
            | some v => rw [hl] at hv; simp at hv; rw [hv]
            | none => rw [hl] at hv; cases hv
          cases he : extractTrailingId u with
          | some ds =>
              rw [he] at h
              simp only [Except.ok.injEq] at h
              subst h
              left
              rw [pyGet_pySet_self]
              simp only [PyVal.truthy, decide_eq_true_eq]
              exact extractTrailingId_ne_empty he
          | none =>
              rw [he] at h
              simp only [Except.ok.injEq] at h
              subst h
              right
              right
              refine ⟨u, ?_, he⟩
              unfold pyGet
              rw [hlu]
              rfl
      | none => rw [hv] at h; simp at h
      | bool b => rw [hv] at h; simp at h
      | num n => rw [hv] at h; simp at h

/-- After a successful unit-price step, the stored unit price is either
falsy or an already-clean string whose rate extraction agrees with the
stored rate fields. -/
theorem unitRateStep_fix_condition {p q : Record} (h : unitRateStep p = .ok q) :
    (pyGet q "unit_price" (.str "")).truthy = false ∨
    ∃ s, pyGet q "unit_price" (.str "") = .str s ∧ firstSeg s = s ∧
      pyStrip s = s ∧
      (extractRate s = Option.none ∨
       ∃ vu, extractRate s = some vu ∧
         pyGet q "rate_value" (.num 0) = .num vu.1 ∧
         pyGet q "rate_unit" (.str "") = .str vu.2) := by
  unfold unitRateStep at h
  cases ht : (pyGet p "unit_price" (.str "")).truthy with
  | false =>
      simp only [ht, Bool.false_eq_true, if_false, Except.ok.injEq] at h
      subst h
      left
      exact ht
  | true =>
      simp only [ht, if_true] at h
      cases hv : pyGet p "unit_price" (.str "") with
      | str s =>
          simp only [hv] at h
          have hbar : ∀ c ∈ (pyStrip (firstSeg s)).data, notBar c = true :=
            pyStrip_noBar (fun c hc => firstSeg_noBar hc)
          have hfs : firstSeg (pyStrip (firstSeg s)) = pyStrip (firstSeg s) :=
            firstSeg_of_noBar hbar
          have hps : pyStrip (pyStrip (firstSeg s)) = pyStrip (firstSeg s) :=
            pyStrip_idem (firstSeg s)
          by_cases hs : pyStrip (firstSeg s) = ""
          · rw [if_pos hs] at h
            simp only [Except.ok.injEq] at h
            subst h
            left
            rw [pyGet_pySet_self, hs]
            rfl
          · rw [if_neg hs] at h
            cases he : extractRate (pyStrip (firstSeg s)) with
            | none =>
                rw [he] at h
                simp only [Except.ok.injEq] at h
                subst h
                right
                exact ⟨pyStrip (firstSeg s), pyGet_pySet_self _ _ _ _, hfs, hps,
                  Or.inl he⟩
            | some vu =>
                rw [he] at h
                simp only [Except.ok.injEq] at h
                subst h
                right
                refine ⟨pyStrip (firstSeg s), ?_, hfs, hps, Or.inr ⟨vu, he, ?_, ?_⟩⟩
                · rw [pyGet_pySet_ne _ _ _ (by decide),
                    pyGet_pySet_ne _ _ _ (by decide), pyGet_pySet_self]
                · rw [pyGet_pySet_ne _ _ _ (by decide), pyGet_pySet_self]
                · rw [pyGet_pySet_self]
      | none => rw [hv] at h; simp at h
      | bool b => rw [hv] at h; simp at h
      | num n => rw [hv] at h; simp at h

/-- After a successful special step, the stored `special_text` is either
falsy with `is_on_special = False`, or an already-trimmed string with
`is_on_special = True`. -/
theorem specialStep_fix_condition {p q : Record} (h : specialStep p = .ok q) :
    ((pyGet q "special_text" (.str "")).truthy = false ∧
      pyGet q "is_on_special" (.bool false) = .bool false) ∨
    (∃ tt, pyGet q "special_text" (.str "") = .str tt ∧ pyStrip tt = tt ∧
      pyGet q "is_on_special" (.bool false) = .bool true) := by
  unfold specialStep at h
  cases ht : (pyGet p "special_text" (.str "")).truthy with
  | false =>
      simp only [ht, Bool.false_eq_true, if_false, Except.ok.injEq] at h
      subst h
      left
      constructor
      · rw [pyGet_pySet_ne _ _ _ (by decide)]
        exact ht
      · rw [pyGet_pySet_self]
  | true =>
      simp only [ht, if_true] at h
      cases hv : pyGet p "special_text" (.str "") with
      | str t =>
          simp only [hv, Except.ok.injEq] at h
          subst h
          right
          refine ⟨pyStrip t, ?_, pyStrip_idem t, ?_⟩
          · rw [pyGet_pySet_self]
          · rw [pyGet_pySet_ne _ _ _ (by decide), pyGet_pySet_self]
      | none => rw [hv] at h; simp at h
      | bool b => rw [hv] at h; simp at h
      | num n => rw [hv] at h; simp at h

/-- After a successful save step, either the stored `save_value` is not
Python-zero, or one of the guards fails, or the stored value is exactly the
recomputed difference — in every case a second pass would write back the
same value. -/
theorem saveStep_fix_condition {p q : Record} (h : saveStep p = .ok q) :
    pyEq (pyGet q "save_value" (.num 0)) (.num 0) = false ∨
    pyGt0 (pyGet q "was_price_value" (.num 0)) = .ok false ∨
    (pyGt0 (pyGet q "was_price_value" (.num 0)) = .ok true ∧
      pyGt0 (pyGet q "price_value" (.num 0)) = .ok false) ∨
    (pyGt0 (pyGet q "was_price_value" (.num 0)) = .ok true ∧
      pyGt0 (pyGet q "price_value" (.num 0)) = .ok true ∧
      ∃ d, pySub (pyGet q "was_price_value" (.num 0))
          (pyGet q "price_value" (.num 0)) = .ok d ∧
        pyGet q "save_value" (.num 0) = .num (round2 d)) := by
  unfold saveStep at h
  cases hs : pyEq (pyGet p "save_value" (.num 0)) (.num 0) with
  | false =>
      simp only [hs, Bool.false_eq_true, if_false, Except.ok.injEq] at h
      subst h
      exact Or.inl hs
  | true =>
      simp only [hs, if_true] at h
      cases hg : pyGt0 (pyGet p "was_price_value" (.num 0)) with
      | error e => rw [hg] at h; simp at h
      | ok b =>
          simp only [hg] at h
          cases b with
          | false =>
              simp only [Except.ok.injEq] at h
              subst h
              exact Or.inr (Or.inl hg)
          | true =>
              cases hg2 : pyGt0 (pyGet p "price_value" (.num 0)) with
              | error e => rw [hg2] at h; simp at h
              | ok b₂ =>
                  simp only [hg2] at h
                  cases b₂ with
                  | false =>
                      simp only [Except.ok.injEq] at h
                      subst h
                      exact Or.inr (Or.inr (Or.inl ⟨hg, hg2⟩))
                  | true =>
                      cases hsub : pySub (pyGet p "was_price_value" (.num 0))
                          (pyGet p "price_value" (.num 0)) with
                      | error e => rw [hsub] at h; simp at h
                      | ok d =>
                          simp only [hsub, Except.ok.injEq] at h
                          subst h
                          refine Or.inr (Or.inr (Or.inr ⟨?_, ?_, d, ?_, ?_⟩))
                          · rw [pyGet_pySet_ne _ _ _ (by decide)]
                            exact hg
                          · rw [pyGet_pySet_ne _ _ _ (by decide)]
                            exact hg2
                          · rw [pyGet_pySet_ne _ _ _ (by decide),
                              pyGet_pySet_ne _ _ _ (by decide)]
                            exact hsub
                          · rw [pyGet_pySet_self]

theorem pyLookup_buildList_id (now : String) (p : Record) (t : String) :
    pyLookup (buildList now p t) "id" = some (pyGet p "id" (.str "")) := rfl

theorem pyLookup_buildList_url (now : String) (p : Record) (t : String) :
    pyLookup (buildList now p t) "url" = some (pyGet p "url" (.str "")) := rfl

theorem pyGet_buildList_title (now : String) (p : Record) (t : String)
    (d : PyVal) : pyGet (buildList now p t) "title" d = .str (pyStrip t) := rfl

theorem pyGet_buildList_unit (now : String) (p : Record) (t : String)
    (d : PyVal) :
    pyGet (buildList now p t) "unit_price" d =
      pyGet p "unit_price" (.str "") := rfl

theorem pyGet_buildList_special (now : String) (p : Record) (t : String)
    (d : PyVal) :
    pyGet (buildList now p t) "special_text" d =
      pyGet p "special_text" (.str "") := rfl

theorem pyGet_buildList_onspecial (now : String) (p : Record) (t : String)
    (d : PyVal) :
    pyGet (buildList now p t) "is_on_special" d =
      pyGet p "is_on_special" (.bool false) := rfl

theorem pyGet_buildList_save (now : String) (p : Record) (t : String)
    (d : PyVal) :
    pyGet (buildList now p t) "save_value" d =
      pyGet p "save_value" (.num 0) := rfl

theorem pyGet_buildList_was (now : String) (p : Record) (t : String)
    (d : PyVal) :
    pyGet (buildList now p t) "was_price_value" d =
      pyGet p "was_price_value" (.num 0) := rfl

theorem pyGet_buildList_price (now : String) (p : Record) (t : String)
    (d : PyVal) :
    pyGet (buildList now p t) "price_value" d =
      pyGet p "price_value" (.num 0) := rfl

/-- A second id step on a built record is the identity. -/
theorem idStep_buildList (now : String) (p : Record) (t : String)
    (hfix : (pyGet p "id" (.str "")).truthy = true ∨
      ((pyGet p "url" (.str "")).truthy = false ∨
       ∃ u, pyGet p "url" (.str "") = .str u ∧
         extractTrailingId u = Option.none)) :
    idStep (buildList now p t) = .ok (buildList now p t) := by
  simp only [idStep, pyLookup_buildList_id, pyLookup_buildList_url,
    Option.getD_some]
  rcases hfix with hid | hurl | ⟨u, hu, he⟩
  · simp [hid]
  · simp [hurl]
  · by_cases hpt : (pyGet p "id" (.str "")).truthy = true
    · simp [hpt]
    · simp only [Bool.not_eq_true] at hpt
      by_cases hu0 : u = ""
      · subst hu0
        simp [hpt, hu, PyVal.truthy]
      · simp [hpt, hu, PyVal.truthy, hu0, he]

/-- A second vendor assignment on a built record is the identity. -/
theorem vendorStep_buildList (now : String) (p : Record) (t : String) :
    vendorStep (buildList now p t) = buildList now p t :=
  pySet_same rfl

/-- A second unit-price step on a built record is the identity. -/
theorem unitRateStep_buildList (now : String) (p : Record) (t : String)
    (hfix : (pyGet p "unit_price" (.str "")).truthy = false ∨
      ∃ s, pyGet p "unit_price" (.str "") = .str s ∧ firstSeg s = s ∧
        pyStrip s = s ∧
        (extractRate s = Option.none ∨
         ∃ vu, extractRate s = some vu ∧
           pyGet p "rate_value" (.num 0) = .num vu.1 ∧
           pyGet p "rate_unit" (.str "") = .str vu.2)) :
    unitRateStep (buildList now p t) = .ok (buildList now p t) := by
  simp only [unitRateStep, pyGet_buildList_unit]
  rcases hfix with hf | ⟨s, hus, hfs, hps, hrate⟩
  · simp [hf]
  · rw [hus]
    by_cases hs0 : s = ""
    · subst hs0
      simp [PyVal.truthy]
    · have hst : (PyVal.str s).truthy = true := by
        simp [PyVal.truthy, hs0]
      have hlk : pyLookup (buildList now p t) "unit_price" =
          some (PyVal.str s) := by
        rw [show pyLookup (buildList now p t) "unit_price" =
          some (pyGet p "unit_price" (.str "")) from rfl, hus]
      have hsame : pySet (buildList now p t) "unit_price" (.str s) =
          buildList now p t := pySet_same hlk
      simp only [hst, if_true, hfs, hps, hsame]
      rw [if_neg hs0]
      rcases hrate with he | ⟨vu, he, hrv, hru⟩
      · simp [he]
      · have hlk₂ : pyLookup (buildList now p t) "rate_value" =
            some (PyVal.num vu.1) := by
          rw [show pyLookup (buildList now p t) "rate_value" =
            some (pyGet p "rate_value" (.num 0)) from rfl, hrv]
        have hlk₃ : pyLookup (buildList now p t) "rate_unit" =
            some (PyVal.str vu.2) := by
          rw [show pyLookup (buildList now p t) "rate_unit" =
            some (pyGet p "rate_unit" (.str "")) from rfl, hru]
        simp only [he]
        rw [pySet_same hlk₂, pySet_same hlk₃]

/-- A second special step on a built record is the identity, provided the
broken case (`is_on_special = True` with empty `special_text`) is
excluded. -/
theorem specialStep_buildList (now : String) (p : Record) (t : String)
    (hfix : ((pyGet p "special_text" (.str "")).truthy = false ∧
        pyGet p "is_on_special" (.bool false) = .bool false) ∨
      (∃ tt, pyGet p "special_text" (.str "") = .str tt ∧ tt ≠ "" ∧
        pyStrip tt = tt ∧
        pyGet p "is_on_special" (.bool false) = .bool true)) :
    specialStep (buildList now p t) = .ok (buildList now p t) := by
  simp only [specialStep, pyGet_buildList_special]
  rcases hfix with ⟨hf, hlos⟩ | ⟨tt, hst, htt0, hps, hlos⟩
  · have hlk : pyLookup (buildList now p t) "is_on_special" =
        some (PyVal.bool false) := by
      rw [show pyLookup (buildList now p t) "is_on_special" =
        some (pyGet p "is_on_special" (.bool false)) from rfl, hlos]
    simp [hf, pySet_same hlk]
  · have htr : (pyGet p "special_text" (.str "")).truthy = true := by
      rw [hst]
      simp [PyVal.truthy, htt0]
    have hlk : pyLookup (buildList now p t) "is_on_special" =
        some (PyVal.bool true) := by
      rw [show pyLookup (buildList now p t) "is_on_special" =
        some (pyGet p "is_on_special" (.bool false)) from rfl, hlos]
    have hlk₂ : pyLookup (buildList now p t) "special_text" =
        some (PyVal.str tt) := by
      rw [show pyLookup (buildList now p t) "special_text" =
        some (pyGet p "special_text" (.str "")) from rfl, hst]
    have hstt : (PyVal.str tt).truthy = true := by
      simp [PyVal.truthy, htt0]
    simp only [htr, if_true, hst, hps, pySet_same hlk, hstt,
      pySet_same hlk₂]

/-- A second save step on a built record is the identity. -/
theorem saveStep_buildList (now : String) (p : Record) (t : String)
    (hfix : pyEq (pyGet p "save_value" (.num 0)) (.num 0) = false ∨
      pyGt0 (pyGet p "was_price_value" (.num 0)) = .ok false ∨
      (pyGt0 (pyGet p "was_price_value" (.num 0)) = .ok true ∧
        pyGt0 (pyGet p "price_value" (.num 0)) = .ok false) ∨
      (pyGt0 (pyGet p "was_price_value" (.num 0)) = .ok true ∧
        pyGt0 (pyGet p "price_value" (.num 0)) = .ok true ∧
        ∃ d, pySub (pyGet p "was_price_value" (.num 0))
            (pyGet p "price_value" (.num 0)) = .ok d ∧
          pyGet p "save_value" (.num 0) = .num (round2 d))) :
    saveStep (buildList now p t) = .ok (buildList now p t) := by
  simp only [saveStep, pyGet_buildList_save, pyGet_buildList_was,
    pyGet_buildList_price]
  rcases hfix with hf | hw | ⟨hw, hc⟩ | ⟨hw, hc, d, hsub, hsv⟩
  · simp [hf]
  · cases hpe : pyEq (pyGet p "save_value" (.num 0)) (.num 0) with
    | false => simp [hpe]
    | true => simp [hpe, hw]
  · cases hpe : pyEq (pyGet p "save_value" (.num 0)) (.num 0) with
    | false => simp [hpe]
    | true => simp [hpe, hw, hc]
  · cases hpe : pyEq (pyGet p "save_value" (.num 0)) (.num 0) with
    | false => simp [hpe]
    | true =>
        have hlk : pyLookup (buildList now p t) "save_value" =
            some (PyVal.num (round2 d)) := by
          rw [show pyLookup (buildList now p t) "save_value" =
            some (pyGet p "save_value" (.num 0)) from rfl, hsv]
        simp [hpe, hw, hc, hsub, pySet_same hlk]

/-- C8 per-record core: any record produced by a pass of
`process_products` that (i) still has a truthy title, (ii) is not in the
broken `is_on_special`/empty-`special_text` state, and (iii) retained all
sixteen schema fields, is an exact fixed point of a second pass. -/
theorem processOne_fixed (now now' : String) (p r : Record)
    (h : processOne now p = .ok (some r))
    (ht : (pyGet r "title" (.str "")).truthy = true)
    (hsp : ¬(pyGet r "is_on_special" (.bool false) = .bool true ∧
        pyGet r "special_text" (.str "") = .str ""))
    (hlen : r.length = 16) :
    processOne now' r = .ok (some r) := by
  obtain ⟨ht₀, p₁, p₃, p₄, p₅, h₁, h₃, h₄, h₅, hb⟩ := processOne_decompose h
  cases htv : pyGet p₅ "title" (.str "") with
  | str t =>
      simp only [buildStep, htv, Except.ok.injEq] at hb
      have hlen16 : ((buildList now p₅ t).filter
          (fun kv => kv.2 != PyVal.none)).length =
          (buildList now p₅ t).length := by
        rw [hb, hlen]
        rfl
      have hfil : (buildList now p₅ t).filter (fun kv => kv.2 != PyVal.none) =
          buildList now p₅ t := filter_eq_of_length hlen16
      have hr : r = buildList now p₅ t := by rw [← hb, hfil]
      subst hr
      -- transfer the per-step postconditions to the final mutable record p₅
      have tid : pyGet p₅ "id" (.str "") = pyGet p₁ "id" (.str "") := by
        rw [saveStep_preserves h₅ _ _ (by decide),
          specialStep_preserves h₄ _ _ (by decide) (by decide),
          unitRateStep_preserves h₃ _ _ (by decide) (by decide) (by decide),
          vendorStep_get _ _ _ (by decide)]
      have turl : pyGet p₅ "url" (.str "") = pyGet p₁ "url" (.str "") := by
        rw [saveStep_preserves h₅ _ _ (by decide),
          specialStep_preserves h₄ _ _ (by decide) (by decide),
          unitRateStep_preserves h₃ _ _ (by decide) (by decide) (by decide),
          vendorStep_get _ _ _ (by decide)]
      have tunit : pyGet p₅ "unit_price" (.str "") =
          pyGet p₃ "unit_price" (.str "") := by
        rw [saveStep_preserves h₅ _ _ (by decide),
          specialStep_preserves h₄ _ _ (by decide) (by decide)]
      have trv : pyGet p₅ "rate_value" (.num 0) =
          pyGet p₃ "rate_value" (.num 0) := by
        rw [saveStep_preserves h₅ _ _ (by decide),
          specialStep_preserves h₄ _ _ (by decide) (by decide)]
      have tru : pyGet p₅ "rate_unit" (.str "") =
          pyGet p₃ "rate_unit" (.str "") := by
        rw [saveStep_preserves h₅ _ _ (by decide),
          specialStep_preserves h₄ _ _ (by decide) (by decide)]
      have tst : pyGet p₅ "special_text" (.str "") =
          pyGet p₄ "special_text" (.str "") :=
        saveStep_preserves h₅ _ _ (by decide)
      have tlos : pyGet p₅ "is_on_special" (.bool false) =
          pyGet p₄ "is_on_special" (.bool false) :=
        saveStep_preserves h₅ _ _ (by decide)
      have hid₅ := idStep_fix_condition h₁
      rw [← tid, ← turl] at hid₅
      have hunit₅ := unitRateStep_fix_condition h₃
      rw [← tunit, ← trv, ← tru] at hunit₅
      have hspec₄ := specialStep_fix_condition h₄
      rw [← tst, ← tlos] at hspec₄
      have hsave₅ := saveStep_fix_condition h₅
      -- the broken special case is excluded by `hsp`
      have hspec₅ : ((pyGet p₅ "special_text" (.str "")).truthy = false ∧
          pyGet p₅ "is_on_special" (.bool false) = .bool false) ∨
          (∃ tt, pyGet p₅ "special_text" (.str "") = .str tt ∧ tt ≠ "" ∧
            pyStrip tt = tt ∧
            pyGet p₅ "is_on_special" (.bool false) = .bool true) := by
        rcases hspec₄ with hle | ⟨tt, h1, h2, h3⟩
        · exact Or.inl hle
        · refine Or.inr ⟨tt, h1, ?_, h2, h3⟩
          intro htt0
          subst htt0
          exact hsp ⟨by rw [pyGet_buildList_onspecial]; exact h3,
            by rw [pyGet_buildList_special]; exact h1⟩
      have hid := idStep_buildList now p₅ t hid₅
      have hvend := vendorStep_buildList now p₅ t
      have hunit := unitRateStep_buildList now p₅ t hunit₅
      have hspec := specialStep_buildList now p₅ t hspec₅
      have hsave := saveStep_buildList now p₅ t hsave₅
      have hBL : buildList now' (buildList now p₅ t) (pyStrip t) =
          buildList now p₅ t := by
        unfold buildList
        rw [pyStrip_idem]
        rfl
      have hbs : buildStep now' (buildList now p₅ t) =
          .ok (buildList now p₅ t) := by
        simp only [buildStep, pyGet_buildList_title]
        rw [hBL, hfil]
      simp only [processOne, ht, if_true, hid, hvend, hunit, hspec, hsave,
        hbs, Except.map]
  | none => simp [buildStep, htv] at hb
  | bool b => simp [buildStep, htv] at hb
  | num n => simp [buildStep, htv] at hb

theorem processProducts_mem (now : String) (ps : List Record) :
    ∀ out, processProducts now ps = .ok out →
      ∀ r ∈ out, ∃ p, processOne now p = .ok (some r) := by
  induction ps with
  | nil =>
      intro out h r hr
      injection h with h
      subst h
      simp at hr
  | cons p ps ih =>
      intro out h r hr
      unfold processProducts at h
      cases hpo : processOne now p with
      | error e => rw [hpo] at h; simp at h
      | ok o =>
          simp only [hpo] at h
          cases o with
          | none => exact ih out h r hr
          | some r₀ =>
              cases hrec : processProducts now ps with
              | error e => rw [hrec] at h; simp at h
              | ok out' =>
                  simp only [hrec, Except.ok.injEq] at h
                  subst h
                  rcases List.mem_cons.mp hr with rfl | hr
                  · exact ⟨p, hpo⟩
                  · exact ih out' hrec r hr

theorem processProducts_of_fixed (now' : String) (l : List Record)
    (h : ∀ r ∈ l, processOne now' r = .ok (some r)) :
    processProducts now' l = .ok l := by
  induction l with
  | nil => rfl
  | cons r l ih =>
      unfold processProducts
      rw [h r (List.mem_cons_self r l),
        ih (fun q hq => h q (List.mem_cons_of_mem r hq))]

/-- C8 (amended): a second pass of `process_products` reproduces its own
output field-for-field, provided each output record still has a truthy
(non-empty) title, is not in the inconsistent state
`is_on_special = True ∧ special_text = ""` (which arises from a
whitespace-only raw `special_text` and flips on the second pass, per the
counterexample), and retained all sixteen schema fields (no `None`-valued
field was dropped). -/
theorem processProducts_idempotent_amended (now now' : String)
    (ps out : List Record) (h : processProducts now ps = .ok out)
    (hcond : ∀ r ∈ out, (pyGet r "title" (.str "")).truthy = true ∧
      ¬(pyGet r "is_on_special" (.bool false) = .bool true ∧
        pyGet r "special_text" (.str "") = .str "") ∧ r.length = 16) :
    processProducts now' out = .ok out := by
  apply processProducts_of_fixed
  intro r hr
  obtain ⟨p, hp⟩ := processProducts_mem now ps out h r hr
  obtain ⟨h1, h2, h3⟩ := hcond r hr
  exact processOne_fixed now now' p r hp h1 h2 h3

theorem processProducts_idempotent_amended_witness :
    processProducts "U"
      [[("id", PyVal.str ""), ("title", PyVal.str "Oats"),
        ("price_value", PyVal.num 0), ("was_price_value", PyVal.num 0),
        ("save_value", PyVal.num 0), ("unit_price", PyVal.str ""),
        ("url", PyVal.str ""), ("image_url", PyVal.str ""),
        ("category", PyVal.str ""), ("page", PyVal.num 0),
        ("vendor", PyVal.str "coles"), ("is_on_special", PyVal.bool false),
        ("special_text", PyVal.str ""), ("rate_value", PyVal.num 0),
        ("rate_unit", PyVal.str ""), ("scrapedAt", PyVal.str "T")]] =
      .ok [[("id", PyVal.str ""), ("title", PyVal.str "Oats"),
        ("price_value", PyVal.num 0), ("was_price_value", PyVal.num 0),
        ("save_value", PyVal.num 0), ("unit_price", PyVal.str ""),
        ("url", PyVal.str ""), ("image_url", PyVal.str ""),
        ("category", PyVal.str ""), ("page", PyVal.num 0),
        ("vendor", PyVal.str "coles"), ("is_on_special", PyVal.bool false),
        ("special_text", PyVal.str ""), ("rate_value", PyVal.num 0),
        ("rate_unit", PyVal.str ""), ("scrapedAt", PyVal.str "T")]] :=
  processProducts_idempotent_amended "T" "U" [[("title", PyVal.str "Oats")]] _
    (by decide) (by decide)
